import Mathlib

/-!
Verification of the bashslides compile→rasterize pipeline.

This file gives a shallow embedding, in Lean 4, of the core of the
presentation engine: the boundary types (`src/types.rs`), the coordinate
model (`src/engine/source.rs`), the per-object resolvers
(`src/engine/objects/*.rs`), the engine (`src/engine/mod.rs`) and the
renderer (`src/renderer/mod.rs`), together with theorems settling the
spec claims about them.

Modelling conventions:
* `u16` values are `Nat`s; arithmetic that can overflow or underflow a
  `u16` (a panic in a debug build) is modelled with the checked helpers
  `add16` / `sub16`, and the resolvers whose arithmetic can fail return
  `Option (List DrawOp)` (`none` = panic).
* `f64` fields (`Coordinate::Fixed`, `Table::col_widths`) are modelled
  as exact rationals `ℚ`; `floor`/`round`/casts keep the source shape.
* Rust's stable `sort_by_key(z_order)` is modelled by a stable insertion
  sort `sortByZ` (the unique permutation that is sorted by `z_order`
  with equal keys kept in emission order, which is what the stable
  standard-library sort produces).
-/

namespace Bs

/-! ## Boundary types (`src/types.rs`) -/

inductive NamedColor where
  | black | red | green | yellow | blue | magenta | cyan | white
  deriving DecidableEq, Repr

inductive Color where
  | named (n : NamedColor)
  | rgb (r g b : Nat)
  deriving DecidableEq, Repr

structure Style where
  fg : Option Color := none
  bg : Option Color := none
  bold : Bool := false
  dim : Bool := false
  deriving DecidableEq, Repr

structure DrawOp where
  x : Nat
  y : Nat
  ch : Char
  style : Style
  z_order : Int
  deriving DecidableEq, Repr

structure ResolvedScene where
  width : Nat
  height : Nat
  ops : List DrawOp
  deriving DecidableEq, Repr

structure TerminalContract where
  width : Nat
  height : Nat
  deriving DecidableEq, Repr

structure Cell where
  ch : Char
  style : Style
  deriving DecidableEq, Repr

/-- `Cell::default()`: a space with the default style. -/
def Cell.default : Cell := ⟨' ', {}⟩

instance : Inhabited Cell := ⟨Cell.default⟩

structure CellChange where
  x : Nat
  y : Nat
  cell : Cell
  deriving DecidableEq, Repr

inductive Frame where
  | full (cells : List (List Cell))
  | diff (changes : List CellChange)
  deriving DecidableEq, Repr

structure Marker where
  frame_index : Nat
  label : String
  deriving DecidableEq, Repr

structure PlayablePresentation where
  contract : TerminalContract
  frames : List Frame
  markers : List Marker
  deriving DecidableEq, Repr

/-! ## Checked u16 arithmetic

Rust integer overflow/underflow panics in debug builds; the pipeline is
claimed to be panic-free, so each `u16` addition and subtraction in the
resolvers is modelled as a checked operation (`none` = overflow panic). -/

def add16 (a b : Nat) : Option Nat :=
  if a + b ≤ 65535 then some (a + b) else none

def sub16 (a b : Nat) : Option Nat :=
  if b ≤ a then some (a - b) else none

/-! ## Geometry primitives (`src/engine/source.rs`) -/

inductive Coordinate where
  /-- `Fixed` value stored as `f64` in the source (exact `ℚ` here). -/
  | fixed (v : ℚ)
  | animated (from_ to_ : Nat) (start_frame end_frame : Nat)
  deriving DecidableEq, Repr

structure Position where
  x : Coordinate
  y : Coordinate
  deriving DecidableEq, Repr

/-- `Coordinate::evaluate`: fixed coordinates are clamped at 0 and floored
(the `as u16` float cast saturates at 65535); animated coordinates clamp to
`from` at or before `start_frame`, to `to` at or after `end_frame`, and
linearly interpolate (rounding) in between. -/
def Coordinate.evaluate : Coordinate → Nat → Nat
  | .fixed v, _ => min (max v 0).floor.toNat 65535
  | .animated from_ to_ start_frame end_frame, frame =>
    if frame ≤ start_frame then from_
    else if end_frame ≤ frame then to_
    else
      let progress : ℚ := ((frame - start_frame : Nat) : ℚ) / ((end_frame - start_frame : Nat) : ℚ)
      (round ((from_ : ℚ) + ((to_ : ℚ) - (from_ : ℚ)) * progress)).toNat

/-- `Coordinate::evaluate` with the interpolation branch guarded: `none`
when the branch would divide by a zero-length span (`end_frame - start_frame
= 0`), which is the hazard the spec discusses for degenerate spans. -/
def Coordinate.evaluateChecked : Coordinate → Nat → Option Nat
  | .fixed v, frame => some (Coordinate.evaluate (.fixed v) frame)
  | .animated from_ to_ start_frame end_frame, frame =>
    if frame ≤ start_frame then some from_
    else if end_frame ≤ frame then some to_
    else if end_frame - start_frame = 0 then none
    else some (Coordinate.evaluate (.animated from_ to_ start_frame end_frame) frame)

/-- `FrameRange` (half-open `[start, end)`). -/
structure FrameRange where
  start : Nat
  end_ : Nat
  deriving DecidableEq, Repr

/-- `FrameRange::contains`: `frame >= self.start && frame < self.end`. -/
def FrameRange.contains (r : FrameRange) (frame : Nat) : Bool :=
  decide (r.start ≤ frame) && decide (frame < r.end_)

/-! ## Claim C4 (degenerate animation span) -/

/-- C4 counterexample: the claim says that with `end_frame <= start_frame`
`Coordinate::evaluate` returns `to` at every frame; but at frame 0 the
coordinate `Animated{from:1, to:2, start_frame:5, end_frame:3}` takes the
`frame <= start_frame` branch first and returns `from = 1`, not `to = 2`. -/
theorem spec_c4_counterexample :
    Coordinate.evaluate (Coordinate.animated 1 2 5 3) 0 = 1 ∧
    ¬ Coordinate.evaluate (Coordinate.animated 1 2 5 3) 0 = 2 := by
  decide

/-- C4 (amended): for every animated coordinate with `end_frame <=
start_frame`, `evaluate` never reaches the interpolation division (so no
division by zero / span underflow), and returns `from` when `frame <=
start_frame` and `to` otherwise. -/
theorem spec_c4 (from_ to_ start_frame end_frame frame : Nat)
    (h : end_frame ≤ start_frame) :
    Coordinate.evaluateChecked (Coordinate.animated from_ to_ start_frame end_frame) frame =
      some (Coordinate.evaluate (Coordinate.animated from_ to_ start_frame end_frame) frame) ∧
    Coordinate.evaluate (Coordinate.animated from_ to_ start_frame end_frame) frame =
      if frame ≤ start_frame then from_ else to_ := by
  by_cases h1 : frame ≤ start_frame
  · simp [Coordinate.evaluate, Coordinate.evaluateChecked, h1]
  · have h2 : end_frame ≤ frame := by omega
    simp [Coordinate.evaluate, Coordinate.evaluateChecked, h1, h2]

/-- C4 witness: a concrete degenerate span, evaluated on both sides of
`start_frame`. -/
theorem spec_c4_witness :
    Coordinate.evaluateChecked (Coordinate.animated 7 9 5 3) 6 =
      some (Coordinate.evaluate (Coordinate.animated 7 9 5 3) 6) ∧
    Coordinate.evaluate (Coordinate.animated 7 9 5 3) 6 = if 6 ≤ 5 then 7 else 9 :=
  spec_c4 7 9 5 3 6 (by decide)

/-! ## Bitmap font (`src/engine/objects/font.rs`) -/

namespace font

/-- `font::glyph`: the 5-row bitmap for `ch`, or `none` if the character is
not in the font.  The caller handles case folding before calling this. -/
def glyph : Char → Option (List String)
  | 'A' => some [" ### ", "#   #", "#####", "#   #", "#   #"]
  | 'B' => some ["#### ", "#   #", "#### ", "#   #", "#### "]
  | 'C' => some [" ### ", "#   #", "#    ", "#   #", " ### "]
  | 'D' => some ["#### ", "#   #", "#   #", "#   #", "#### "]
  | 'E' => some ["#####", "#    ", "###  ", "#    ", "#####"]
  | 'F' => some ["#####", "#    ", "###  ", "#    ", "#    "]
  | 'G' => some [" ### ", "#    ", "#  ##", "#   #", " ### "]
  | 'H' => some ["#   #", "#   #", "#####", "#   #", "#   #"]
  | 'I' => some ["###", " # ", " # ", " # ", "###"]
  | 'J' => some ["  ###", "   # ", "   # ", "#  # ", " ##  "]
  | 'K' => some ["#   #", "#  # ", "###  ", "#  # ", "#   #"]
  | 'L' => some ["#    ", "#    ", "#    ", "#    ", "#####"]
  | 'M' => some ["#   #", "## ##", "# # #", "#   #", "#   #"]
  | 'N' => some ["#   #", "##  #", "# # #", "#  ##", "#   #"]
  | 'O' => some [" ### ", "#   #", "#   #", "#   #", " ### "]
  | 'P' => some ["#### ", "#   #", "#### ", "#    ", "#    "]
  | 'Q' => some [" ### ", "#   #", "# # #", "#  # ", " ## #"]
  | 'R' => some ["#### ", "#   #", "#### ", "#  # ", "#   #"]
  | 'S' => some [" ####", "#    ", " ### ", "    #", "#### "]
  | 'T' => some ["#####", "  #  ", "  #  ", "  #  ", "  #  "]
  | 'U' => some ["#   #", "#   #", "#   #", "#   #", " ### "]
  | 'V' => some ["#   #", "#   #", "#   #", " # # ", "  #  "]
  | 'W' => some ["#   #", "#   #", "# # #", "## ##", "#   #"]
  | 'X' => some ["#   #", " # # ", "  #  ", " # # ", "#   #"]
  | 'Y' => some ["#   #", " # # ", "  #  ", "  #  ", "  #  "]
  | 'Z' => some ["#####", "   # ", "  #  ", " #   ", "#####"]
  | '0' => some [" ### ", "#   #", "#   #", "#   #", " ### "]
  | '1' => some [" # ", "## ", " # ", " # ", "###"]
  | '2' => some [" ### ", "#   #", "  ## ", " #   ", "#####"]
  | '3' => some [" ### ", "#   #", "  ## ", "#   #", " ### "]
  | '4' => some ["#  # ", "#  # ", "#####", "   # ", "   # "]
  | '5' => some ["#####", "#    ", "#### ", "    #", "#### "]
  | '6' => some [" ### ", "#    ", "#### ", "#   #", " ### "]
  | '7' => some ["#####", "   # ", "  #  ", " #   ", " #   "]
  | '8' => some [" ### ", "#   #", " ### ", "#   #", " ### "]
  | '9' => some [" ### ", "#   #", " ####", "   # ", " ### "]
  | ' ' => some ["   ", "   ", "   ", "   ", "   "]
  | '!' => some ["#", "#", "#", " ", "#"]
  | '.' => some [" ", " ", " ", " ", "#"]
  | '-' => some ["     ", "     ", "#####", "     ", "     "]
  | '?' => some [" ### ", "#   #", "  ## ", "     ", "  #  "]
  | ':' => some [" ", "#", " ", "#", " "]
  | _ => none

/-- `char::to_ascii_uppercase`. -/
def toAsciiUpper (c : Char) : Char :=
  if 'a' ≤ c ∧ c ≤ 'z' then Char.ofNat (c.toNat - 32) else c

/-- The accumulator loop of `font::text_width` (`width` and `first` are the
loop state; the list is the remaining characters).  The source accumulates in
a `u16`, so the `width += 1` gap add and the `width += g[0].len() as u16` add
are both checked (`none` models the debug-build overflow panic), and the
`as u16` cast of the row length truncates mod 2^16. -/
def text_width_go (width : Nat) (first : Bool) : List Char → Option Nat
  | [] => some width
  | ch :: rest =>
    match glyph (toAsciiUpper ch) with
    | some g =>
      match (if first then some width else add16 width 1) with
      | none => none
      | some w1 =>
        match add16 w1 ((g.headD "").length % 65536) with
        | none => none
        | some w2 => text_width_go w2 false rest
    | none => text_width_go width first rest

/-- `font::text_width`: rendered width of `text` in glyph columns, with a
1-column gap between recognised characters, accumulated in a checked u16.
Note the lookup is on `ch.to_ascii_uppercase()`. -/
def text_width (text : String) : Option Nat :=
  text_width_go 0 true text.toList

/-- The widths of the glyphs found for the ASCII-uppercased characters of a
character list, in order, each truncated by the `as u16` cast (spec-side
helper for C9). -/
def widthsOf (l : List Char) : List Nat :=
  l.filterMap (fun ch => (glyph (toAsciiUpper ch)).map (fun g => (g.headD "").length % 65536))

/-- The widths of the glyphs found for the ASCII-uppercased characters of
`text`, in order (spec-side formulation for C9). -/
def foundGlyphWidths (text : String) : List Nat :=
  widthsOf text.toList

lemma widthsOf_cons_some {ch : Char} {g : List String}
    (hg : glyph (toAsciiUpper ch) = some g) (l : List Char) :
    widthsOf (ch :: l) = ((g.headD "").length % 65536) :: widthsOf l := by
  simp [widthsOf, List.filterMap_cons, hg]

lemma widthsOf_cons_none {ch : Char} (hg : glyph (toAsciiUpper ch) = none) (l : List Char) :
    widthsOf (ch :: l) = widthsOf l := by
  simp [widthsOf, List.filterMap_cons, hg]

lemma if_true_bool {α : Sort _} (a b : α) : (if (true : Bool) = true then a else b) = a := rfl

lemma if_false_bool {α : Sort _} (a b : α) : (if (false : Bool) = true then a else b) = b := rfl

lemma text_width_go_eq (l : List Char) :
    ∀ (width : Nat) (first : Bool), width ≤ 65535 →
      text_width_go width first l =
        if width + (widthsOf l).sum
            + (if first then (widthsOf l).length - 1 else (widthsOf l).length) ≤ 65535
        then some (width + (widthsOf l).sum
            + (if first then (widthsOf l).length - 1 else (widthsOf l).length))
        else none := by
  induction l with
  | nil =>
    intro width first hw
    cases first <;> simp [text_width_go, widthsOf, hw]
  | cons ch rest ih =>
    intro width first hw
    cases hg : glyph (toAsciiUpper ch) with
    | none =>
      have hstep : text_width_go width first (ch :: rest) = text_width_go width first rest := by
        simp [text_width_go, hg]
      rw [hstep, widthsOf_cons_none hg, ih _ _ hw]
    | some g =>
      rw [widthsOf_cons_some hg]
      cases first with
      | true =>
        by_cases h1 : width + (g.headD "").length % 65536 ≤ 65535
        · have hstep : text_width_go width true (ch :: rest) =
              text_width_go (width + (g.headD "").length % 65536) false rest := by
            simp only [text_width_go, hg, if_true_bool, if_true, add16, if_pos h1]
          rw [hstep, ih _ _ h1]
          simp only [List.sum_cons, List.length_cons, if_true_bool, if_false_bool,
            Bool.false_eq_true, if_true, if_false]
          rw [show width + (g.headD "").length % 65536 + (widthsOf rest).sum
                + (widthsOf rest).length
              = width + ((g.headD "").length % 65536 + (widthsOf rest).sum)
                + ((widthsOf rest).length + 1 - 1) from by omega]
        · have hstep : text_width_go width true (ch :: rest) = none := by
            simp only [text_width_go, hg, if_true_bool, if_true, add16, if_neg h1]
          rw [hstep]
          simp only [List.sum_cons, List.length_cons, if_true_bool, if_true]
          rw [if_neg (by omega)]
      | false =>
        by_cases h1 : width + 1 ≤ 65535
        · by_cases h2 : width + 1 + (g.headD "").length % 65536 ≤ 65535
          · have hstep : text_width_go width false (ch :: rest) =
                text_width_go (width + 1 + (g.headD "").length % 65536) false rest := by
              simp only [text_width_go, hg, if_false_bool, Bool.false_eq_true, if_false, add16,
                if_pos h1, if_pos h2]
            rw [hstep, ih _ _ h2]
            simp only [List.sum_cons, List.length_cons, if_false_bool, Bool.false_eq_true, if_false]
            rw [show width + 1 + (g.headD "").length % 65536 + (widthsOf rest).sum
                  + (widthsOf rest).length
                = width + ((g.headD "").length % 65536 + (widthsOf rest).sum)
                  + ((widthsOf rest).length + 1) from by omega]
          · have hstep : text_width_go width false (ch :: rest) = none := by
              simp only [text_width_go, hg, if_false_bool, Bool.false_eq_true, if_false, add16,
                if_pos h1, if_neg h2]
            rw [hstep]
            simp only [List.sum_cons, List.length_cons, if_false_bool, Bool.false_eq_true, if_false]
            rw [if_neg (by omega)]
        · have hstep : text_width_go width false (ch :: rest) = none := by
            simp only [text_width_go, hg, if_false_bool, Bool.false_eq_true, if_false, add16,
              if_neg h1]
          rw [hstep]
          simp only [List.sum_cons, List.length_cons, if_false_bool, Bool.false_eq_true, if_false]
          rw [if_neg (by omega)]

end font

/-! ## Claim C9 (text_width) -/

/-- C9 counterexample: the claim says glyph lookup failure is decided on the
raw character, so `'a'` (whose raw lookup fails) would contribute no width;
but `text_width "a"` case-folds to `'A'` first and returns 5, not 0. -/
theorem spec_c9_counterexample :
    font.text_width "a" = some 5 ∧ font.glyph 'a' = none ∧ ¬ font.text_width "a" = some 0 := by
  decide

/-- C9 (amended): for every text string, `font::text_width` sums the widths
of the glyphs found for the ASCII-uppercased characters plus one gap column
per transition between found glyphs, as long as that total fits the u16
accumulator; once it exceeds 65535 some checked add overflows (debug-build
panic, modelled as `none`).  A character whose uppercased glyph lookup fails
contributes no width (lookup IS case-folded, via `to_ascii_uppercase`,
before the failure is decided). -/
theorem spec_c9 (text : String) :
    font.text_width text =
      if (font.foundGlyphWidths text).sum + ((font.foundGlyphWidths text).length - 1) ≤ 65535
      then some ((font.foundGlyphWidths text).sum + ((font.foundGlyphWidths text).length - 1))
      else none := by
  rw [font.text_width, font.text_width_go_eq _ 0 true (by omega)]
  simp [font.foundGlyphWidths]

/-! ## Arrow (`src/engine/objects/arrow.rs`) -/

/-- Directional families: (right, left, down, up). -/
def HEAD_FAMILIES : List (Char × Char × Char × Char) :=
  [('▶', '◀', '▼', '▲'), ('>', '<', 'v', '^'), ('→', '←', '↓', '↑')]

/-- `head_char_h`: the family member pointing in the horizontal direction. -/
def head_char_h (ch : Char) (positive_dir : Bool) : Char :=
  match HEAD_FAMILIES.find? (fun f => ch = f.1 ∨ ch = f.2.1 ∨ ch = f.2.2.1 ∨ ch = f.2.2.2) with
  | some f => if positive_dir then f.1 else f.2.1
  | none => ch

/-- `head_char_v`: the family member pointing in the vertical direction. -/
def head_char_v (ch : Char) (positive_dir : Bool) : Char :=
  match HEAD_FAMILIES.find? (fun f => ch = f.1 ∨ ch = f.2.1 ∨ ch = f.2.2.1 ∨ ch = f.2.2.2) with
  | some f => if positive_dir then f.2.2.1 else f.2.2.2
  | none => ch

/-- `body_char_vertical`: vertical counterpart of a horizontal body char. -/
def body_char_vertical (ch : Char) : Char :=
  if ch = '─' then '│' else if ch = '═' then '║' else ch

structure Arrow where
  x1 : Coordinate
  y1 : Coordinate
  x2 : Coordinate
  y2 : Coordinate
  head : Bool := true
  head_ch : Option Char := none
  body_ch : Option Char := none
  style : Style := {}
  frames : FrameRange
  z_order : Int := 0
  deriving DecidableEq, Repr

/-- The `emit` closure of `Arrow::resolve`: push one cell, skipping
off-screen (negative) coordinates. -/
def arrowEmit (s : Style) (z : Int) (x y : Int) (ch : Char) : List DrawOp :=
  if 0 ≤ x ∧ 0 ≤ y then [⟨x.toNat, y.toNat, ch, s, z⟩] else []

/-- `Arrow::resolve`: orthogonal (Manhattan) routing between the two
evaluated endpoints; `while` loops over the body cells are modelled as
`List.range` iterations of the same length and order. -/
def Arrow.resolve (a : Arrow) (frame : Nat) : List DrawOp :=
  if ¬ a.frames.contains frame then []
  else
    let x1 : Int := a.x1.evaluate frame
    let y1 : Int := a.y1.evaluate frame
    let x2 : Int := a.x2.evaluate frame
    let y2 : Int := a.y2.evaluate frame
    let dx_abs := (x2 - x1).natAbs
    let dy_abs := (y2 - y1).natAbs
    let sx := Int.sign (x2 - x1)
    let sy := Int.sign (y2 - y1)
    let s := a.style
    let z := a.z_order
    if dx_abs = 0 ∧ dy_abs = 0 then
      arrowEmit s z x1 y1 '*'
    else
      let h_head := match a.head_ch with
        | some ch => head_char_h ch (decide (0 ≤ sx))
        | none => if 0 ≤ sx then '▶' else '◀'
      let v_head := match a.head_ch with
        | some ch => head_char_v ch (decide (0 ≤ sy))
        | none => if 0 ≤ sy then '▼' else '▲'
      let h_body := a.body_ch.getD '─'
      let v_body := (a.body_ch.map body_char_vertical).getD '│'
      if dx_abs = 0 then
        ((List.range dy_abs).flatMap fun k => arrowEmit s z x1 (y1 + sy * k) v_body) ++
          arrowEmit s z x1 y2 (if a.head then v_head else v_body)
      else if dy_abs = 0 then
        ((List.range dx_abs).flatMap fun k => arrowEmit s z (x1 + sx * k) y1 h_body) ++
          arrowEmit s z x2 y1 (if a.head then h_head else h_body)
      else if dy_abs ≤ dx_abs then
        -- H-first: horizontal run at y1, corner at (x2, y1), vertical run down to y2.
        let corner :=
          if sx = 1 ∧ sy = 1 then '┐'
          else if sx = 1 ∧ sy = -1 then '┘'
          else if sx = -1 ∧ sy = 1 then '┌'
          else '└'
        ((List.range dx_abs).flatMap fun k => arrowEmit s z (x1 + sx * k) y1 h_body) ++
          arrowEmit s z x2 y1 corner ++
          ((List.range (dy_abs - 1)).flatMap fun k => arrowEmit s z x2 (y1 + sy + sy * k) v_body) ++
          arrowEmit s z x2 y2 (if a.head then v_head else v_body)
      else
        -- V-first: vertical run at x1, corner at (x1, y2), horizontal run to x2.
        let corner :=
          if sx = 1 ∧ sy = 1 then '└'
          else if sx = 1 ∧ sy = -1 then '┌'
          else if sx = -1 ∧ sy = 1 then '┘'
          else '┐'
        ((List.range dy_abs).flatMap fun k => arrowEmit s z x1 (y1 + sy * k) v_body) ++
          arrowEmit s z x1 y2 corner ++
          ((List.range (dx_abs - 1)).flatMap fun k => arrowEmit s z (x1 + sx + sx * k) y2 h_body) ++
          arrowEmit s z x2 y2 (if a.head then h_head else h_body)

/-! ## Claim C10 (degenerate point arrow) -/

/-- C10: for every Arrow whose coordinates evaluate, at a frame inside its
range, to coinciding endpoints, `resolve` emits exactly one DrawOp: the
character `*` at that point with the arrow's style and z_order — regardless
of the `head` flag and of any custom head/body characters. -/
theorem spec_c10 (a : Arrow) (frame : Nat)
    (hin : a.frames.contains frame = true)
    (hx : a.x1.evaluate frame = a.x2.evaluate frame)
    (hy : a.y1.evaluate frame = a.y2.evaluate frame) :
    Arrow.resolve a frame =
      [⟨a.x1.evaluate frame, a.y1.evaluate frame, '*', a.style, a.z_order⟩] := by
  rw [Arrow.resolve]
  simp only [hin, hx, hy, Bool.true_eq_false, not_false_eq_true, reduceIte, sub_self,
    Int.natAbs_zero, and_self, if_true]
  simp [arrowEmit, Int.natCast_nonneg, ← hx, ← hy]

/-- C10 witness: a concrete point arrow with a custom head character and
`head = false` still resolves to a single `*`. -/
theorem spec_c10_witness :
    Arrow.resolve
      { x1 := .fixed 3, y1 := .fixed 4, x2 := .fixed 3, y2 := .fixed 4,
        head := false, head_ch := some '>', body_ch := some '═',
        style := {}, frames := ⟨0, 2⟩, z_order := 7 } 1 =
      [⟨Coordinate.evaluate (.fixed 3) 1, Coordinate.evaluate (.fixed 4) 1, '*', {}, 7⟩] :=
  spec_c10 _ 1 (by decide) (by decide) (by decide)

/-- Rust's `str::split(sep)` over the character list: splits on every
separator, keeping empty segments (`"" → [""]`, `"a\nb" → ["a","b"]`,
`"a\n" → ["a",""]`). -/
def splitOnChar (sep : Char) : List Char → List (List Char)
  | [] => [[]]
  | c :: rest =>
    match splitOnChar sep rest with
    | [] => [[]]
    | h :: t => if c == sep then [] :: h :: t else (c :: h) :: t

/-! ## Label (`src/engine/objects/label.rs`) -/

namespace label

/-- `draw_frame`: box-drawing border used by framed labels.  `fw`/`fh` are
`usize` in the source and are cast to `u16` (`% 65536`) before the corner
arithmetic; every `u16` addition/subtraction is checked. -/
def draw_frame (fx fy : Nat) (fw fh : Nat) (style : Style) (z : Int) :
    Option (List DrawOp) :=
  if fw < 2 ∨ fh < 2 then some []
  else do
    let fwu := fw % 65536
    let fhu := fh % 65536
    let right ← sub16 (← add16 fx fwu) 1
    let bottom ← sub16 (← add16 fy fhu) 1
    let fwm1 ← sub16 fwu 1
    let fhm1 ← sub16 fhu 1
    let horiz ← (List.range' 1 (fwm1 - 1)).mapM (fun i => do
        let xi ← add16 fx i
        pure [(⟨xi, fy, '─', style, z⟩ : DrawOp), ⟨xi, bottom, '─', style, z⟩])
    let vert ← (List.range' 1 (fhm1 - 1)).mapM (fun j => do
        let yj ← add16 fy j
        pure [(⟨fx, yj, '│', style, z⟩ : DrawOp), ⟨right, yj, '│', style, z⟩])
    pure ([⟨fx, fy, '┌', style, z⟩, ⟨right, fy, '┐', style, z⟩,
           ⟨fx, bottom, '└', style, z⟩, ⟨right, bottom, '┘', style, z⟩] ++
          horiz.flatten ++ vert.flatten)

/-- `list_continuation_indent`: hanging indent for wrapped list items
(`"- "` → 2, `"N. "` → 3, otherwise 0). -/
def list_continuation_indent (line : List Char) : Nat :=
  if line.take 2 = ['-', ' '] then 2
  else
    let after_digits := line.dropWhile (fun c => c.isDigit)
    let digit_count := line.length - after_digits.length
    if 0 < digit_count ∧ after_digits.take 2 = ['.', ' '] then 3
    else 0

/-- `chunk.iter().rposition(|&c| c == ' ')`. -/
def rposition_space (l : List Char) : Option Nat :=
  match l.reverse.findIdx? (· == ' ') with
  | some i => some (l.length - 1 - i)
  | none => none

/-- One output row of the wrap loop: a `vec![' '; w]` with `cs` written
starting at column `col0` (callers guarantee `col0 + cs.length ≤ w`). -/
def padRow (w col0 : Nat) (cs : List Char) : List Char :=
  List.replicate col0 ' ' ++ cs ++ List.replicate (w - col0 - cs.length) ' '

/-- The `while pos < chars.len()` loop of `wrap_text_line`; `fuel` bounds
the iteration count (each iteration of the source loop advances `pos` by at
least one when `w ≥ 1`, so `chars.length + 1` fuel is never exhausted for
the widths the resolver calls this with). -/
def wrapGo (w indent : Nat) : Nat → Bool → List Char → List (List Char)
  | 0, _, _ => []
  | _ + 1, _, [] => []
  | fuel + 1, first, ch :: chs =>
    let chars := ch :: chs
    let col0 := if first then 0 else min indent (w - 1)
    let avail := w - col0
    if chars.length ≤ avail then
      [padRow w col0 chars]
    else
      let chunk := chars.take avail
      let ra :=
        match rposition_space chunk with
        | some sp => (sp, sp + 1)
        | none => (avail, avail)
      padRow w col0 (chars.take ra.1) ::
        wrapGo w indent fuel false ((chars.drop ra.2).dropWhile (· == ' '))

/-- `wrap_text_line`: word-wrap a single logical line to width `w`, with
list-item continuation indents; rows are padded to length `w`. -/
def wrap_text_line (line : List Char) (w : Nat) : List (List Char) :=
  if line.isEmpty then [[]]
  else
    let indent := list_continuation_indent line
    let rows := wrapGo w indent (line.length + 1) true line
    if rows.isEmpty then [[]] else rows

end label

structure Label where
  text : String
  position : Position
  width : Coordinate := .fixed 0
  height : Coordinate := .fixed 0
  framed : Bool := false
  frame_style : Option Style := none
  style : Style := {}
  frames : FrameRange
  z_order : Int := 0
  deriving DecidableEq, Repr

/-- `Label::resolve`.  The `'lines` loop with its `h`-truncation breaks is
modelled by flat-mapping the wrap over the lines and `take h`-ing the
result, which yields the same wrapped rows in the same order. -/
def Label.resolve (l : Label) (frame : Nat) : Option (List DrawOp) :=
  if ¬ l.frames.contains frame then some []
  else do
    let base_x := l.position.x.evaluate frame
    let base_y := l.position.y.evaluate frame
    let w := l.width.evaluate frame
    let h := l.height.evaluate frame
    let has_bg := l.style.bg.isSome
    if 0 < w then do
      let lines := splitOnChar '\n' l.text.toList
      let rows0 := lines.flatMap (fun line => label.wrap_text_line line w)
      let rows1 := if h = 0 then rows0 else rows0.take h
      let rows := if h = 0 then rows1 else rows1 ++ List.replicate (h - rows1.length) []
      let opsRows ← rows.enum.mapM (fun rc => do
          let emit_w := if has_bg then w else rc.2.length
          let cells ← (List.range emit_w).mapM (fun col => do
              let ch := rc.2.getD col ' '
              if ¬ has_bg ∧ ch = ' ' ∧ rc.2.length ≤ col then
                pure none
              else do
                let x ← add16 base_x col
                let y ← add16 base_y rc.1
                pure (some (⟨x, y, ch, l.style, l.z_order⟩ : DrawOp)))
          pure cells.reduceOption)
      let textOps := opsRows.flatten
      if l.framed then do
        let border_style := l.frame_style.getD l.style
        let frameOps ← label.draw_frame (base_x - 1) (base_y - 1) (w + 2) (rows.length + 2)
            border_style l.z_order
        pure (textOps ++ frameOps)
      else
        pure textOps
    else do
      -- No wrapping: emit chars directly, no fill.
      let lines := splitOnChar '\n' l.text.toList
      let procLines := if h = 0 then lines else lines.take h
      let max_len := procLines.foldl (fun m line => max m line.length) 0
      let opsRows ← procLines.enum.mapM (fun rc =>
          rc.2.enum.mapM (fun cc => do
            let x ← add16 base_x cc.1
            let y ← add16 base_y rc.1
            pure (⟨x, y, cc.2, l.style, l.z_order⟩ : DrawOp)))
      let textOps := opsRows.flatten
      if l.framed then do
        let border_style := l.frame_style.getD l.style
        let frameOps ← label.draw_frame (base_x - 1) (base_y - 1) (max_len + 2)
            ((if h = 0 then procLines.length else h) + 2) border_style l.z_order
        pure (textOps ++ frameOps)
      else
        pure textOps

/-! ## Rect (`src/engine/objects/rect.rs`) -/

structure Rect where
  position : Position
  width : Coordinate
  height : Coordinate
  style : Style := {}
  frames : FrameRange
  z_order : Int := 0
  title : Option String := none
  deriving DecidableEq, Repr

/-- `Rect::resolve`: box-drawing rectangle border plus an optional title on
the top edge at `z + 1`, clipped by `tx < x + w - 1` (that bound's `u16`
arithmetic is checked — it underflows when `x + w = 0`). -/
def Rect.resolve (r : Rect) (frame : Nat) : Option (List DrawOp) :=
  if ¬ r.frames.contains frame then some []
  else do
    let x := r.position.x.evaluate frame
    let y := r.position.y.evaluate frame
    let w := r.width.evaluate frame
    let h := r.height.evaluate frame
    let s := r.style
    let z := r.z_order
    -- Top edge
    let topDashes ← (List.range' 1 ((w - 1) - 1)).mapM (fun i => do
        let xi ← add16 x i
        pure (⟨xi, y, '─', s, z⟩ : DrawOp))
    let topRight ← if 1 < w then do
        let xr ← sub16 (← add16 x w) 1
        pure [(⟨xr, y, '┐', s, z⟩ : DrawOp)]
      else pure []
    -- Side edges
    let sides ← (List.range' 1 ((h - 1) - 1)).mapM (fun j => do
        let yj ← add16 y j
        if 1 < w then do
          let xr ← sub16 (← add16 x w) 1
          pure [(⟨x, yj, '│', s, z⟩ : DrawOp), ⟨xr, yj, '│', s, z⟩]
        else
          pure [(⟨x, yj, '│', s, z⟩ : DrawOp)])
    -- Bottom edge
    let bottom ← if 1 < h then do
        let yb ← sub16 (← add16 y h) 1
        let bDashes ← (List.range' 1 ((w - 1) - 1)).mapM (fun i => do
            let xi ← add16 x i
            pure (⟨xi, yb, '─', s, z⟩ : DrawOp))
        let br ← if 1 < w then do
            let xr ← sub16 (← add16 x w) 1
            pure [(⟨xr, yb, '┘', s, z⟩ : DrawOp)]
          else pure []
        pure ((⟨x, yb, '└', s, z⟩ : DrawOp) :: bDashes ++ br)
      else pure []
    -- Title (rendered on top edge, one z-level above the rect)
    let titleOps ← match r.title with
      | none => pure []
      | some title => do
        let parts ← title.toList.enum.mapM (fun ic => do
            let tx ← add16 (← add16 x 2) ic.1
            let bound ← sub16 (← add16 x w) 1
            if tx < bound then
              pure [(⟨tx, y, ic.2, s, z + 1⟩ : DrawOp)]
            else pure [])
        pure parts.flatten
    pure (((⟨x, y, '┌', s, z⟩ : DrawOp) :: topDashes ++ topRight) ++
          sides.flatten ++ bottom ++ titleOps)

/-! ## Claim C5 (totality / panic-freedom of the pipeline) -/

/-- A width-0 rect with a title at position 0 (the claim's own example of an
in-range input the pipeline must survive). -/
def c5Rect : Rect :=
  { position := ⟨.fixed 0, .fixed 0⟩, width := .fixed 0, height := .fixed 1,
    style := {}, frames := ⟨0, 1⟩, z_order := 0, title := some "T" }

/-- A two-character label placed at the u16 coordinate limit. -/
def c5Label : Label :=
  { text := "ab", position := ⟨.fixed 65535, .fixed 0⟩, frames := ⟨0, 1⟩ }

/-- C5: the claim (no panic on any in-range field values) fails: the title
guard of `Rect::resolve` computes `x + w - 1`, which underflows `u16` for a
width-0 rect at `x = 0` (panic in a debug build), and `Label::resolve`
computes `base_x + col`, which overflows `u16` for a label authored at
`x = 65535` (both checked resolvers return `none` = panic). -/
theorem spec_c5 : Rect.resolve c5Rect 0 = none ∧ Label.resolve c5Label 0 = none := by
  decide

/-! ## Claim C7 (background-less labels and space characters) -/

/-- A background-less label whose text is shorter than its width. -/
def c7Label : Label :=
  { text := "Hi", position := ⟨.fixed 0, .fixed 0⟩, width := .fixed 5, frames := ⟨0, 1⟩ }

/-- C7: the claim (a background-less label emits no space DrawOps) fails:
`wrap_text_line` pads every row to the full width with spaces and the emit
loop's skip guard (`ch == ' ' && col >= row_chars.len()`) can never fire for
`col < emit_w = row_chars.len()`, so the label `{text: "Hi", width: 5}`
with no background emits three DrawOps carrying the space character. -/
theorem spec_c7 :
    c7Label.style.bg = none ∧
    ((Label.resolve c7Label 0).getD []).countP (fun op => op.ch == ' ') = 3 ∧
    ((Label.resolve c7Label 0).getD []).length = 5 := by
  decide

/-! ## HLine (`src/engine/objects/hline.rs`) -/

structure HLine where
  y : Coordinate
  x_start : Coordinate
  x_end : Coordinate
  ch : Char := '─'
  style : Style := {}
  frames : FrameRange
  z_order : Int := 0
  deriving DecidableEq, Repr

/-- `HLine::resolve`: one DrawOp per column in `x_start..x_end` at row `y`. -/
def HLine.resolve (h : HLine) (frame : Nat) : List DrawOp :=
  if ¬ h.frames.contains frame then []
  else
    let y := h.y.evaluate frame
    let x_start := h.x_start.evaluate frame
    let x_end := h.x_end.evaluate frame
    (List.range' x_start (x_end - x_start)).map (fun x => ⟨x, y, h.ch, h.style, h.z_order⟩)

/-! ## Header (`src/engine/objects/header.rs`) -/

structure Header where
  text : String
  position : Position
  style : Style := {}
  frames : FrameRange
  z_order : Int := 0
  ch : Char := '█'
  deriving DecidableEq, Repr

/-- The per-glyph cell emission of `Header::resolve` (filled pixels use the
header's fill char and style, blanks are background-filled when a
background color is set). -/
def headerGlyphOps (g : List String) (hdr : Header) (has_bg : Bool) (bg_style : Style)
    (cursor_x base_y : Nat) : Option (List DrawOp) := do
  let rows ← g.enum.mapM (fun rl => do
      let cells ← rl.2.toList.enum.mapM (fun cc => do
          if cc.2 ≠ ' ' then do
            let x ← add16 cursor_x cc.1
            let y ← add16 base_y rl.1
            pure [(⟨x, y, hdr.ch, hdr.style, hdr.z_order⟩ : DrawOp)]
          else if has_bg then do
            let x ← add16 cursor_x cc.1
            let y ← add16 base_y rl.1
            pure [(⟨x, y, ' ', bg_style, hdr.z_order⟩ : DrawOp)]
          else
            pure [])
      pure cells.flatten)
  let gapOps ← if has_bg then do
      let gap_x ← add16 cursor_x (g.headD "").length
      (List.range 5).mapM (fun row => do
        let y ← add16 base_y row
        pure (⟨gap_x, y, ' ', bg_style, hdr.z_order⟩ : DrawOp))
    else pure []
  pure (rows.flatten ++ gapOps)

/-- `Header::resolve`: renders `text` with the 5-row bitmap font, one glyph
per recognised (ASCII-uppercased) character, advancing the cursor by the
glyph width plus a 1-column gap; unrecognised characters are skipped. -/
def Header.resolve (hdr : Header) (frame : Nat) : Option (List DrawOp) :=
  if ¬ hdr.frames.contains frame then some []
  else do
    let base_x := hdr.position.x.evaluate frame
    let base_y := hdr.position.y.evaluate frame
    let has_bg := hdr.style.bg.isSome
    let bg_style : Style := if has_bg then { bg := hdr.style.bg } else {}
    let st ← hdr.text.toList.foldlM (fun (st : Nat × List DrawOp) ch => do
        match font.glyph (font.toAsciiUpper ch) with
        | some g => do
          let ops ← headerGlyphOps g hdr has_bg bg_style st.1 base_y
          let cx ← add16 st.1 ((g.headD "").length + 1)
          pure (cx, st.2 ++ ops)
        | none => pure st) (base_x, [])
    pure st.2

/-! ## Group (`src/engine/objects/group.rs`) -/

structure Group where
  members : List Nat
  frames : FrameRange
  z_order : Int := 0
  deriving DecidableEq, Repr

/-- `Group::resolve`: groups emit no DrawOps. -/
def Group.resolve (_g : Group) (_frame : Nat) : List DrawOp := []

/-! ## Renderer (`src/renderer/mod.rs`)

A grid is a list of rows of cells, `grid[y][x]`. -/

abbrev Grid := List (List Cell)

/-- `vec![vec![Cell::default(); w]; h]`. -/
def emptyGrid (w h : Nat) : Grid :=
  List.replicate h (List.replicate w Cell.default)

/-- The cell of `g` at column `x`, row `y` (default cell out of bounds). -/
def cellAt (g : Grid) (x y : Nat) : Cell :=
  ((g[y]?.getD [])[x]?).getD Cell.default

/-- Stable insertion of a draw op into a z-sorted list: `op` goes in front
of the first element whose `z_order` is not below its own, so equal keys
keep their original relative order. -/
def insertZ (op : DrawOp) : List DrawOp → List DrawOp
  | [] => [op]
  | b :: t => if op.z_order ≤ b.z_order then op :: b :: t else b :: insertZ op t

/-- `ops.sort_by_key(|op| op.z_order)`: Rust's slice sort is stable; this
insertion sort produces the same list (sorted by `z_order` ascending,
emission order preserved among equal keys). -/
def sortByZ (l : List DrawOp) : List DrawOp :=
  l.foldr insertZ []

/-- Painting one op onto the grid: `grid[y][x] = cell` when in bounds,
otherwise silently dropped. -/
def paint (w h : Nat) (g : Grid) (op : DrawOp) : Grid :=
  if op.x < w ∧ op.y < h then
    g.set op.y ((g.getD op.y []).set op.x ⟨op.ch, op.style⟩)
  else g

namespace Renderer

/-- `Renderer::rasterize`: allocate a `width × height` grid of default
cells, sort the ops by z-order (stable) and paint them in order. -/
def rasterize (scene : ResolvedScene) (contract : TerminalContract) : Grid :=
  (sortByZ scene.ops).foldl (paint contract.width contract.height)
    (emptyGrid contract.width contract.height)

/-- The row scan of `Renderer::diff` (`x` is the running column index, the
two lists are the zipped remainders of the rows). -/
def diffRow (y : Nat) : Nat → List Cell → List Cell → List CellChange
  | _, [], _ => []
  | _, _ :: _, [] => []
  | x, pc :: ps, nc :: ns =>
    (if pc ≠ nc then [⟨x, y, nc⟩] else []) ++ diffRow y (x + 1) ps ns

/-- The grid scan of `Renderer::diff` (`y` is the running row index). -/
def diffGrid : Nat → Grid → Grid → List CellChange
  | _, [], _ => []
  | _, _ :: _, [] => []
  | y, pr :: ps, nr :: ns => diffRow y 0 pr nr ++ diffGrid (y + 1) ps ns

/-- `Renderer::diff`: cell-level diff between two grids — exactly the
cells whose `(char, style)` pair changed, scanned row-major. -/
def diff (prev next : Grid) : List CellChange :=
  diffGrid 0 prev next

/-- The frame loop of `Renderer::render`, carrying the previously
rasterized grid. -/
def renderFrames (contract : TerminalContract) : Option Grid → List ResolvedScene → List Frame
  | _, [] => []
  | prev, scene :: rest =>
    let grid := rasterize scene contract
    (match prev with
     | none => Frame.full grid
     | some p => Frame.diff (diff p grid)) :: renderFrames contract (some grid) rest

/-- `Renderer::render`: first frame full, every later frame a diff against
the immediately preceding rasterized grid. -/
def render (scenes : List ResolvedScene) (contract : TerminalContract) : PlayablePresentation :=
  { contract := contract, frames := renderFrames contract none scenes, markers := [] }

end Renderer

/-! ## Player grid reconstruction (`src/player/mod.rs`)

`Player::apply_frame` / `Player::rebuild_grid`: a full frame replaces the
grid; a diff frame applies its cell changes (bounds-checked against the
current grid). -/

/-- One diff change: `grid[y][x] = cell` if `y < grid.len() && x <
grid[0].len()`. -/
def applyChange (g : Grid) (c : CellChange) : Grid :=
  if c.y < g.length ∧ c.x < (g.headD []).length then
    g.set c.y ((g.getD c.y []).set c.x c.cell)
  else g

/-- `Player::apply_frame`. -/
def applyFrame (g : Grid) : Frame → Grid
  | .full cells => cells
  | .diff changes => changes.foldl applyChange g

/-- `Player::rebuild_grid`: start from a default grid and apply frames
`0..=target` in order. -/
def reconstruct (frames : List Frame) (contract : TerminalContract) (target : Nat) : Grid :=
  (frames.take (target + 1)).foldl applyFrame (emptyGrid contract.width contract.height)

/-! ## Sorting lemmas -/

/-- Sortedness by `z_order` (ascending). -/
def zSorted (l : List DrawOp) : Prop :=
  l.Pairwise (fun a b => a.z_order ≤ b.z_order)

lemma insertZ_of_le (a : DrawOp) (s : List DrawOp) (h : ∀ c ∈ s, a.z_order ≤ c.z_order) :
    insertZ a s = a :: s := by
  cases s with
  | nil => rfl
  | cons b t => simp [insertZ, h b (by simp)]

lemma insertZ_cons_of_lt (a b : DrawOp) (t : List DrawOp) (h : b.z_order < a.z_order) :
    insertZ a (b :: t) = b :: insertZ a t := by
  rw [insertZ, if_neg (by omega)]

lemma insertZ_perm (a : DrawOp) (s : List DrawOp) : List.Perm (insertZ a s) (a :: s) := by
  induction s with
  | nil => exact List.Perm.refl _
  | cons b t ih =>
    by_cases hab : a.z_order ≤ b.z_order
    · rw [insertZ, if_pos hab]
    · rw [insertZ, if_neg hab]
      exact (ih.cons b).trans (List.Perm.swap a b t)

lemma zSorted_insertZ (a : DrawOp) (s : List DrawOp) (hs : zSorted s) :
    zSorted (insertZ a s) := by
  induction s with
  | nil => simp [insertZ, zSorted]
  | cons b t ih =>
    rw [zSorted, List.pairwise_cons] at hs
    by_cases hab : a.z_order ≤ b.z_order
    · rw [insertZ, if_pos hab]
      refine List.Pairwise.cons ?_ (List.Pairwise.cons hs.1 hs.2)
      intro c hc
      rcases List.mem_cons.1 hc with rfl | hc
      · exact hab
      · exact le_trans hab (hs.1 c hc)
    · rw [insertZ, if_neg hab]
      refine List.Pairwise.cons ?_ (ih hs.2)
      intro c hc
      have hmem : c ∈ a :: t := (insertZ_perm a t).mem_iff.1 hc
      rcases List.mem_cons.1 hmem with rfl | hc'
      · omega
      · exact hs.1 c hc'

lemma zSorted_sortByZ (l : List DrawOp) : zSorted (sortByZ l) := by
  induction l with
  | nil => simp [sortByZ, zSorted]
  | cons a t ih => simpa [sortByZ] using zSorted_insertZ a _ (by simpa [sortByZ] using ih)

lemma filter_insertZ (p : DrawOp → Bool) (a : DrawOp) (s : List DrawOp) (hs : zSorted s) :
    (insertZ a s).filter p = if p a then insertZ a (s.filter p) else s.filter p := by
  induction s with
  | nil => cases hpa : p a <;> simp [insertZ, List.filter, hpa]
  | cons b t ih =>
    rw [zSorted, List.pairwise_cons] at hs
    by_cases hab : a.z_order ≤ b.z_order
    · rw [insertZ, if_pos hab]
      have hall : ∀ c ∈ (b :: t).filter p, a.z_order ≤ c.z_order := by
        intro c hc
        have hc' := (List.mem_filter.1 hc).1
        rcases List.mem_cons.1 hc' with rfl | hc'
        · exact hab
        · exact le_trans hab (hs.1 c hc')
      cases hpa : p a
      · simp [List.filter_cons, hpa]
      · rw [List.filter_cons, insertZ_of_le a _ hall]
        simp [hpa]
    · rw [insertZ, if_neg hab]
      have ihs := ih hs.2
      cases hpa : p a
      · cases hpb : p b <;> simp [List.filter_cons, hpa, hpb, ihs]
      · cases hpb : p b
        · simp [List.filter_cons, hpa, hpb, ihs]
        · simp only [List.filter_cons, hpa, hpb, if_pos, ihs]
          rw [insertZ_cons_of_lt a b _ (by omega)]

lemma filter_sortByZ (p : DrawOp → Bool) (l : List DrawOp) :
    (sortByZ l).filter p = sortByZ (l.filter p) := by
  induction l with
  | nil => simp [sortByZ]
  | cons a t ih =>
    have h1 : sortByZ (a :: t) = insertZ a (sortByZ t) := rfl
    rw [h1, filter_insertZ p a _ (zSorted_sortByZ t), ih, List.filter_cons]
    cases hpa : p a <;> simp [hpa, sortByZ]

/-! ## Claim C6 (out-of-bounds ops are dropped) -/

/-- An op is in bounds of the contract grid. -/
def inBounds (c : TerminalContract) (op : DrawOp) : Bool :=
  decide (op.x < c.width) && decide (op.y < c.height)

lemma paint_oob {w h : Nat} (g : Grid) (op : DrawOp) (hop : ¬ (op.x < w ∧ op.y < h)) :
    paint w h g op = g := by
  simp [paint, hop]

lemma foldl_paint_filter (w h : Nat) (l : List DrawOp) :
    ∀ g : Grid,
      l.foldl (paint w h) g =
        (l.filter (fun op => decide (op.x < w) && decide (op.y < h))).foldl (paint w h) g := by
  induction l with
  | nil => intro g; rfl
  | cons op t ih =>
    intro g
    by_cases hop : op.x < w ∧ op.y < h
    · have : (decide (op.x < w) && decide (op.y < h)) = true := by
        simp [hop.1, hop.2]
      simp only [List.foldl_cons, List.filter_cons, this, if_pos]
      exact ih (paint w h g op)
    · have : (decide (op.x < w) && decide (op.y < h)) = false := by
        rcases not_and_or.1 hop with h1 | h1 <;> simp [h1]
      simp only [List.foldl_cons, List.filter_cons, this, Bool.false_eq_true, if_neg,
        not_false_eq_true, paint_oob g op hop]
      exact ih g

/-- C6: for every resolved scene and contract, rasterization paints only
the ops with `x < width` and `y < height`: the resulting grid equals the
rasterization of the scene restricted to its in-bounds ops, so
out-of-bounds DrawOps have no effect on any cell (and `rasterize` is a
total function — dropping them is never a failure). -/
theorem spec_c6 (scene : ResolvedScene) (c : TerminalContract) :
    Renderer.rasterize scene c =
      Renderer.rasterize ⟨scene.width, scene.height, scene.ops.filter (inBounds c)⟩ c := by
  show (sortByZ scene.ops).foldl (paint c.width c.height) (emptyGrid c.width c.height) = _
  rw [foldl_paint_filter]
  show (List.filter _ (sortByZ scene.ops)).foldl _ _ =
    (sortByZ (scene.ops.filter (inBounds c))).foldl (paint c.width c.height)
      (emptyGrid c.width c.height)
  rw [filter_sortByZ]
  rfl

/-! ## Claim C3 (z-order compositing) -/

/-- An op targets cell `(x, y)`. -/
def atCell (x y : Nat) (op : DrawOp) : Bool :=
  decide (op.x = x) && decide (op.y = y)

/-- The last op in list order that targets `(x, y)`: painting in order,
this is the op whose cell survives. -/
def lastAt (x y : Nat) (l : List DrawOp) : Option DrawOp :=
  (l.filter (atCell x y)).getLast?

/-- One step of the winner computation: a candidate op against the winner
of the ops emitted after it (later ops win ties). -/
def winnerStep (op : DrawOp) (x y : Nat) (w : Option DrawOp) : Option DrawOp :=
  if atCell x y op then
    match w with
    | none => some op
    | some b => if op.z_order ≤ b.z_order then some b else some op
  else w

/-- The winning op at `(x, y)` per the spec: greatest `z_order`, ties going
to the op emitted later in the list. -/
def winnerAt (x y : Nat) : List DrawOp → Option DrawOp
  | [] => none
  | op :: rest => winnerStep op x y (winnerAt x y rest)

lemma winnerStep_not_at {op : DrawOp} {x y : Nat} (w : Option DrawOp)
    (h : ¬ atCell x y op = true) : winnerStep op x y w = w := by
  simp [winnerStep, h]

lemma winnerStep_at_none {op : DrawOp} {x y : Nat} (h : atCell x y op = true) :
    winnerStep op x y none = some op := by
  simp [winnerStep, h]

lemma winnerStep_at_some {op b : DrawOp} {x y : Nat} (h : atCell x y op = true) :
    winnerStep op x y (some b) =
      if op.z_order ≤ b.z_order then some b else some op := by
  simp [winnerStep, h]

lemma lastAt_nil (x y : Nat) : lastAt x y [] = none := rfl

lemma lastAt_cons (x y : Nat) (b : DrawOp) (m : List DrawOp) :
    lastAt x y (b :: m) = (lastAt x y m).or (if atCell x y b then some b else none) := by
  rw [lastAt, lastAt, List.filter_cons]
  cases hpb : atCell x y b
  · simp
  · simp only [if_pos]
    cases hfm : List.filter (atCell x y) m with
    | nil => simp
    | cons c t =>
      rw [List.getLast?_cons_cons, Option.or_of_isSome (by simp [List.getLast?_isSome])]

lemma lastAt_mem {x y : Nat} {l : List DrawOp} {c : DrawOp} (h : lastAt x y l = some c) :
    c ∈ l ∧ atCell x y c = true := by
  have hm : c ∈ l.filter (atCell x y) :=
    List.mem_of_mem_getLast? (by rw [lastAt] at h; simp [h])
  exact ⟨(List.mem_filter.1 hm).1, (List.mem_filter.1 hm).2⟩

lemma winnerAt_mem : ∀ {l : List DrawOp} {x y : Nat} {w : DrawOp},
    winnerAt x y l = some w → w ∈ l ∧ atCell x y w = true := by
  intro l
  induction l with
  | nil => intro x y w h; simp [winnerAt] at h
  | cons op rest ih =>
    intro x y w h
    rw [winnerAt] at h
    by_cases hat : atCell x y op = true
    · cases hw : winnerAt x y rest with
      | none =>
        rw [hw, winnerStep_at_none hat] at h
        obtain rfl : op = w := by simpa using h
        exact ⟨by simp, hat⟩
      | some b =>
        rw [hw, winnerStep_at_some hat] at h
        by_cases hz : op.z_order ≤ b.z_order
        · rw [if_pos hz] at h
          obtain rfl : b = w := by simpa using h
          rcases ih hw with ⟨hmem, hatb⟩
          exact ⟨by simp [hmem], hatb⟩
        · rw [if_neg hz] at h
          obtain rfl : op = w := by simpa using h
          exact ⟨by simp, hat⟩
    · rw [winnerStep_not_at _ hat] at h
      rcases ih h with ⟨hmem, hatw⟩
      exact ⟨by simp [hmem], hatw⟩

/-- Inserting into a z-sorted list commutes with "last op at the cell" the
way the winner recursion expects: the inserted op beats exactly the ops it
was inserted in front of. -/
lemma lastAt_insertZ (x y : Nat) (a : DrawOp) (s : List DrawOp) (hs : zSorted s) :
    lastAt x y (insertZ a s) = winnerStep a x y (lastAt x y s) := by
  induction s with
  | nil =>
    cases hat : atCell x y a <;>
      simp [insertZ, lastAt, List.filter, winnerStep, hat]
  | cons b t ih =>
    rw [zSorted, List.pairwise_cons] at hs
    by_cases hab : a.z_order ≤ b.z_order
    · rw [insertZ, if_pos hab, lastAt_cons]
      cases hlbt : lastAt x y (b :: t) with
      | none =>
        cases hat : atCell x y a <;>
          simp [hat, hlbt, winnerStep_not_at, winnerStep_at_none]
      | some c =>
        have hc := lastAt_mem hlbt
        have hbz : b.z_order ≤ c.z_order := by
          rcases List.mem_cons.1 hc.1 with rfl | hc'
          · omega
          · exact hs.1 c hc'
        have haz : a.z_order ≤ c.z_order := le_trans hab hbz
        cases hat : atCell x y a
        · rw [winnerStep_not_at _ (by simp [hat])]
          simp
        · rw [winnerStep_at_some hat, if_pos haz]
          simp
    · rw [insertZ, if_neg hab, lastAt_cons, ih hs.2, lastAt_cons]
      cases hat : atCell x y a
      · rw [winnerStep_not_at _ (by simp [hat]), winnerStep_not_at _ (by simp [hat])]
      · cases hlt : lastAt x y t with
        | none =>
          rw [winnerStep_at_none hat]
          cases hatb : atCell x y b
          · simp [hatb, winnerStep_at_none hat]
          · simp only [hatb, if_pos, Option.none_or]
            rw [winnerStep_at_some hat, if_neg hab]
            simp
        | some c =>
          by_cases hac : a.z_order ≤ c.z_order
          · rw [winnerStep_at_some hat, if_pos hac,
              show ∀ o : Option DrawOp, (some c).or o = some c from fun _ => rfl,
              winnerStep_at_some hat, if_pos hac]
          · rw [winnerStep_at_some hat, if_neg hac,
              show ∀ o : Option DrawOp, (some a).or o = some a from fun _ => rfl,
              show ∀ o : Option DrawOp, (some c).or o = some c from fun _ => rfl,
              winnerStep_at_some hat, if_neg hac]

/-- The painted survivor of the stable z-sort is exactly the spec winner. -/
lemma lastAt_sortByZ (x y : Nat) (l : List DrawOp) :
    lastAt x y (sortByZ l) = winnerAt x y l := by
  induction l with
  | nil => rfl
  | cons a t ih =>
    have h1 : sortByZ (a :: t) = insertZ a (sortByZ t) := rfl
    rw [h1, lastAt_insertZ x y a _ (zSorted_sortByZ t), ih, winnerAt]

/-! Grid shape and painting lemmas -/

lemma getD_eq_getElem (g : Grid) (y : Nat) (hy : y < g.length) : g.getD y [] = g[y] := by
  rw [List.getD_eq_getElem?_getD, List.getElem?_eq_getElem hy]
  rfl

lemma emptyGrid_length (w h : Nat) : (emptyGrid w h).length = h := by
  simp [emptyGrid]

lemma emptyGrid_rows (w h : Nat) : ∀ row ∈ emptyGrid w h, row.length = w := by
  intro row hr
  rcases List.mem_replicate.1 hr with ⟨-, rfl⟩
  simp

lemma cellAt_emptyGrid (w h x y : Nat) : cellAt (emptyGrid w h) x y = Cell.default := by
  by_cases hy : y < h <;> by_cases hx : x < w <;>
    simp [cellAt, emptyGrid, List.getElem?_replicate, hy, hx]

lemma paint_length (w h : Nat) (g : Grid) (op : DrawOp) :
    (paint w h g op).length = g.length := by
  rw [paint]
  split <;> simp

lemma paint_rows (w h : Nat) (g : Grid) (op : DrawOp) (hg : g.length = h)
    (hrow : ∀ row ∈ g, row.length = w) :
    ∀ row ∈ paint w h g op, row.length = w := by
  intro row hr
  rw [paint] at hr
  split at hr
  · rename_i hb
    rcases List.mem_or_eq_of_mem_set hr with hr' | rfl
    · exact hrow row hr'
    · rw [List.length_set, getD_eq_getElem g op.y (by omega)]
      exact hrow _ (List.getElem_mem (by omega))
  · exact hrow row hr

lemma cellAt_paint (w h x y : Nat) (g : Grid) (op : DrawOp)
    (hx : x < w) (hy : y < h) (hg : g.length = h) (hrow : ∀ row ∈ g, row.length = w) :
    cellAt (paint w h g op) x y =
      if atCell x y op then (⟨op.ch, op.style⟩ : Cell) else cellAt g x y := by
  by_cases hat : atCell x y op = true
  · obtain ⟨hxx, hyy⟩ : op.x = x ∧ op.y = y := by simpa [atCell] using hat
    rw [paint, if_pos (by omega), if_pos hat, cellAt, hyy, hxx,
      List.getElem?_set, if_pos rfl, if_pos (by omega),
      getD_eq_getElem g y (by omega)]
    simp only [Option.getD_some]
    rw [List.getElem?_set, if_pos rfl,
      if_pos (by rw [hrow _ (List.getElem_mem (by omega))]; omega)]
    rfl
  · rw [paint, if_neg hat]
    split
    · rename_i hb
      rw [cellAt, cellAt]
      by_cases hyy : op.y = y
      · have hxx : op.x ≠ x := by
          intro hc
          exact hat (by simp [atCell, hc, hyy])
        rw [hyy, List.getElem?_set, if_pos rfl, if_pos (by omega),
          getD_eq_getElem g y (by omega)]
        simp only [Option.getD_some]
        rw [List.getElem?_set, if_neg hxx, List.getElem?_eq_getElem (show y < g.length by omega)]
        rfl
      · rw [List.getElem?_set, if_neg hyy]
    · rfl

lemma cellAt_foldl_paint (w h x y : Nat) (hx : x < w) (hy : y < h) :
    ∀ (l : List DrawOp) (g : Grid), g.length = h → (∀ row ∈ g, row.length = w) →
      cellAt (l.foldl (paint w h) g) x y =
        (lastAt x y l).elim (cellAt g x y) (fun op => ⟨op.ch, op.style⟩) := by
  intro l
  induction l with
  | nil => intro g _ _; simp [lastAt]
  | cons op t ih =>
    intro g hg hrow
    rw [List.foldl_cons,
      ih (paint w h g op) (by rw [paint_length]; exact hg) (paint_rows w h g op hg hrow),
      lastAt_cons]
    cases hlt : lastAt x y t with
    | some c => simp
    | none =>
      simp only [Option.none_or, Option.elim]
      rw [cellAt_paint w h x y g op hx hy hg hrow]
      cases hat : atCell x y op <;> simp [hat]

lemma winnerAt_none {l : List DrawOp} {x y : Nat}
    (h : ∀ op ∈ l, ¬ (op.x = x ∧ op.y = y)) : winnerAt x y l = none := by
  cases hw : winnerAt x y l with
  | none => rfl
  | some w =>
    rcases winnerAt_mem hw with ⟨hmem, hat⟩
    rw [atCell] at hat
    simp at hat
    exact absurd hat (h w hmem)

/-- The winner recursion returns an op with the cell data and z_order of
any "dominant" op: one targeting the cell whose z_order beats every other
op at that cell, with later emission winning ties. -/
lemma winnerAt_dominant :
    ∀ (l : List DrawOp) (x y i : Nat) (hi : i < l.length),
      atCell x y l[i] = true →
      (∀ j (hj : j < l.length), atCell x y l[j] = true →
        l[j].z_order < l[i].z_order ∨ (l[j].z_order = l[i].z_order ∧ j ≤ i)) →
      ∃ w, winnerAt x y l = some w ∧ w.ch = l[i].ch ∧ w.style = l[i].style ∧
        w.z_order = l[i].z_order := by
  intro l
  induction l with
  | nil => intro x y i hi hat hdom; exact absurd hi (by simp)
  | cons a t ih =>
    intro x y i hi hat hdom
    cases i with
    | zero =>
      simp only [List.getElem_cons_zero] at hat hdom ⊢
      rw [winnerAt]
      cases hw : winnerAt x y t with
      | none => exact ⟨a, by rw [winnerStep_at_none hat], rfl, rfl, rfl⟩
      | some b =>
        rcases winnerAt_mem hw with ⟨hbm, hbat⟩
        rcases List.mem_iff_getElem.1 hbm with ⟨jb, hjb, rfl⟩
        have hj := hdom (jb + 1) (by simpa using hjb) (by simpa using hbat)
        simp only [List.getElem_cons_succ] at hj
        refine ⟨a, ?_, rfl, rfl, rfl⟩
        rw [winnerStep_at_some hat, if_neg (by omega)]
    | succ k =>
      simp only [List.getElem_cons_succ] at hat hdom ⊢
      have hk : k < t.length := by simpa using hi
      have hdom' : ∀ j (hj : j < t.length), atCell x y t[j] = true →
          t[j].z_order < t[k].z_order ∨ (t[j].z_order = t[k].z_order ∧ j ≤ k) := by
        intro j hj hatj
        have := hdom (j + 1) (by simpa using hj) (by simpa using hatj)
        simp only [List.getElem_cons_succ] at this
        omega
      rcases ih x y k hk hat hdom' with ⟨w, hw, hch, hst, hz⟩
      rw [winnerAt, hw]
      by_cases hata : atCell x y a = true
      · have h0 := hdom 0 (by simp) (by simpa using hata)
        simp only [List.getElem_cons_zero] at h0
        rw [winnerStep_at_some hata, if_pos (by omega)]
        exact ⟨w, rfl, hch, hst, hz⟩
      · rw [winnerStep_not_at _ hata]
        exact ⟨w, rfl, hch, hst, hz⟩

/-- C3: for every resolved scene and every in-bounds cell `(x, y)`, the
rasterized cell is the character and style of the DrawOp targeting `(x, y)`
with the greatest `z_order` — among ops with equal greatest `z_order` the
one emitted latest in the flat op list wins — and a cell targeted by no op
stays the default cell (space, default style). -/
theorem spec_c3 (scene : ResolvedScene) (c : TerminalContract) (x y : Nat)
    (hx : x < c.width) (hy : y < c.height) :
    ((∀ op ∈ scene.ops, ¬ (op.x = x ∧ op.y = y)) →
        cellAt (Renderer.rasterize scene c) x y = Cell.default) ∧
    (∀ i (hi : i < scene.ops.length),
      (scene.ops[i].x = x ∧ scene.ops[i].y = y) →
      (∀ j (hj : j < scene.ops.length), (scene.ops[j].x = x ∧ scene.ops[j].y = y) →
        (scene.ops[j].z_order < scene.ops[i].z_order ∨
          (scene.ops[j].z_order = scene.ops[i].z_order ∧ j ≤ i))) →
      cellAt (Renderer.rasterize scene c) x y = ⟨scene.ops[i].ch, scene.ops[i].style⟩) := by
  have hbase :
      cellAt (Renderer.rasterize scene c) x y =
        (winnerAt x y scene.ops).elim Cell.default (fun op => ⟨op.ch, op.style⟩) := by
    rw [Renderer.rasterize,
      cellAt_foldl_paint c.width c.height x y hx hy _ _ (emptyGrid_length _ _)
        (emptyGrid_rows _ _),
      lastAt_sortByZ, cellAt_emptyGrid]
  constructor
  · intro hnone
    rw [hbase, winnerAt_none hnone]
    rfl
  · intro i hi hati hdom
    have hat' : atCell x y scene.ops[i] = true := by
      rw [atCell]; simp [hati.1, hati.2]
    have hdom' : ∀ j (hj : j < scene.ops.length), atCell x y scene.ops[j] = true →
        scene.ops[j].z_order < scene.ops[i].z_order ∨
          (scene.ops[j].z_order = scene.ops[i].z_order ∧ j ≤ i) := by
      intro j hj hatj
      rw [atCell] at hatj
      simp at hatj
      exact hdom j hj hatj
    rcases winnerAt_dominant scene.ops x y i hi hat' hdom' with ⟨w, hw, hch, hst, -⟩
    rw [hbase, hw]
    simp [Option.elim, hch, hst]

/-- C3 witness: two ops on the same cell with equal z_order — the later one
wins. -/
theorem spec_c3_witness :
    cellAt
      (Renderer.rasterize
        ⟨2, 1, [⟨0, 0, 'a', {}, 0⟩, ⟨0, 0, 'b', {}, 0⟩]⟩ ⟨2, 1⟩) 0 0 =
      ⟨('b' : Char), ({} : Style)⟩ :=
  (spec_c3 ⟨2, 1, [⟨0, 0, 'a', {}, 0⟩, ⟨0, 0, 'b', {}, 0⟩]⟩ ⟨2, 1⟩ 0 0
      (by decide) (by decide)).2 1 (by decide) (by decide)
    (by decide)

/-! ## Claim C2 (frame structure and diff round-trip) -/

lemma foldl_paint_shape (w h : Nat) :
    ∀ (l : List DrawOp) (g : Grid), g.length = h → (∀ row ∈ g, row.length = w) →
      (l.foldl (paint w h) g).length = h ∧ ∀ row ∈ l.foldl (paint w h) g, row.length = w := by
  intro l
  induction l with
  | nil => intro g hg hrow; exact ⟨hg, hrow⟩
  | cons op t ih =>
    intro g hg hrow
    rw [List.foldl_cons]
    exact ih _ (by rw [paint_length]; exact hg) (paint_rows w h g op hg hrow)

lemma rasterize_length (scene : ResolvedScene) (c : TerminalContract) :
    (Renderer.rasterize scene c).length = c.height :=
  (foldl_paint_shape c.width c.height _ _ (emptyGrid_length _ _) (emptyGrid_rows _ _)).1

lemma rasterize_rows (scene : ResolvedScene) (c : TerminalContract) :
    ∀ row ∈ Renderer.rasterize scene c, row.length = c.width :=
  (foldl_paint_shape c.width c.height _ _ (emptyGrid_length _ _) (emptyGrid_rows _ _)).2

lemma diffRow_coords :
    ∀ (pr nr : List Cell) (y x0 : Nat) (ch : CellChange),
      ch ∈ Renderer.diffRow y x0 pr nr → ch.y = y ∧ x0 ≤ ch.x ∧ ch.x < x0 + pr.length := by
  intro pr
  induction pr with
  | nil => intro nr y x0 ch h; simp [Renderer.diffRow] at h
  | cons pc ps ih =>
    intro nr y x0 ch h
    cases nr with
    | nil => simp [Renderer.diffRow] at h
    | cons nc ns =>
      rw [Renderer.diffRow] at h
      rcases List.mem_append.1 h with h1 | h1
      · by_cases hne : pc ≠ nc
        · rw [if_pos hne] at h1
          simp at h1
          subst h1
          refine ⟨rfl, le_refl _, ?_⟩
          simp only [List.length_cons]
          omega
        · rw [if_neg hne] at h1
          simp at h1
      · rcases ih ns y (x0 + 1) ch h1 with ⟨h2, h3, h4⟩
        refine ⟨h2, by omega, ?_⟩
        simp only [List.length_cons]
        omega

lemma setRow_diffRow :
    ∀ (pr nr rpre : List Cell) (y : Nat), pr.length = nr.length →
      (Renderer.diffRow y rpre.length pr nr).foldl (fun r ch => r.set ch.x ch.cell)
        (rpre ++ pr) = rpre ++ nr := by
  intro pr
  induction pr with
  | nil =>
    intro nr rpre y hlen
    have hn : nr = [] := by
      cases nr with
      | nil => rfl
      | cons a t => simp at hlen
    subst hn
    rfl
  | cons pc ps ih =>
    intro nr rpre y hlen
    cases nr with
    | nil => simp at hlen
    | cons nc ns =>
      have hlen' : ps.length = ns.length := by simpa using hlen
      rw [Renderer.diffRow, List.foldl_append]
      by_cases hne : pc ≠ nc
      · rw [if_pos hne]
        simp only [List.foldl_cons, List.foldl_nil]
        rw [List.set_append, if_neg (by omega)]
        simp only [Nat.sub_self, List.set_cons_zero]
        rw [show rpre ++ nc :: ps = (rpre ++ [nc]) ++ ps by simp,
          show rpre.length + 1 = (rpre ++ [nc]).length by simp,
          ih ns (rpre ++ [nc]) y hlen']
        simp
      · rw [if_neg hne]
        have hpc : pc = nc := by tauto
        subst hpc
        simp only [List.foldl_nil]
        rw [show rpre ++ pc :: ps = (rpre ++ [pc]) ++ ps by simp,
          show rpre.length + 1 = (rpre ++ [pc]).length by simp,
          ih ns (rpre ++ [pc]) y hlen']
        simp

lemma foldl_applyChange_row :
    ∀ (chs : List CellChange) (gpre : Grid) (pr : List Cell) (ps : Grid) (w : Nat),
      (∀ ch ∈ chs, ch.y = gpre.length ∧ ch.x < w) →
      (∀ r ∈ gpre, r.length = w) → pr.length = w →
      chs.foldl applyChange (gpre ++ pr :: ps) =
        gpre ++ (chs.foldl (fun r ch => r.set ch.x ch.cell) pr) :: ps := by
  intro chs
  induction chs with
  | nil => intro gpre pr ps w _ _ _; rfl
  | cons ch t ih =>
    intro gpre pr ps w hc hgpre hpr
    have hch := hc ch (by simp)
    have hhead : ((gpre ++ pr :: ps).headD []).length = w := by
      cases gpre with
      | nil => simpa using hpr
      | cons a tg => simpa using hgpre a (by simp)
    have hguard : ch.y < (gpre ++ pr :: ps).length ∧
        ch.x < ((gpre ++ pr :: ps).headD []).length := by
      constructor
      · rw [List.length_append]
        simp only [List.length_cons]
        omega
      · rw [hhead]
        exact hch.2
    have hgetd : (gpre ++ pr :: ps).getD ch.y [] = pr := by
      rw [hch.1, List.getD_eq_getElem?_getD, List.getElem?_append, if_neg (by omega)]
      simp
    have hset : (gpre ++ pr :: ps).set ch.y (pr.set ch.x ch.cell) =
        gpre ++ (pr.set ch.x ch.cell) :: ps := by
      rw [hch.1, List.set_append, if_neg (by omega)]
      simp
    rw [List.foldl_cons, applyChange, if_pos hguard, hgetd, hset, List.foldl_cons]
    exact ih gpre _ ps w (fun c hcm => hc c (by simp [hcm])) hgpre
      (by rw [List.length_set]; exact hpr)

lemma foldl_applyChange_diffGrid :
    ∀ (p n gpre : Grid) (w : Nat),
      p.length = n.length →
      (∀ r ∈ gpre ++ p, r.length = w) → (∀ r ∈ n, r.length = w) →
      (Renderer.diffGrid gpre.length p n).foldl applyChange (gpre ++ p) = gpre ++ n := by
  intro p
  induction p with
  | nil =>
    intro n gpre w hlen _ _
    have hn : n = [] := by
      cases n with
      | nil => rfl
      | cons a t => simp at hlen
    subst hn
    rfl
  | cons pr ps ih =>
    intro n gpre w hlen hshape hn
    cases n with
    | nil => simp at hlen
    | cons nr ns =>
      have hpr : pr.length = w := hshape pr (by simp)
      have hnr : nr.length = w := hn nr (by simp)
      rw [Renderer.diffGrid, List.foldl_append]
      rw [foldl_applyChange_row (Renderer.diffRow gpre.length 0 pr nr) gpre pr ps w
        (fun ch hch => by
          rcases diffRow_coords pr nr gpre.length 0 ch hch with ⟨h1, -, h3⟩
          exact ⟨h1, by omega⟩)
        (fun r hr => hshape r (by simp [hr])) hpr]
      have hfold : (Renderer.diffRow gpre.length 0 pr nr).foldl
          (fun r ch => r.set ch.x ch.cell) pr = nr := by
        have := setRow_diffRow pr nr [] gpre.length (by omega)
        simpa using this
      have hshape' : ∀ r ∈ (gpre ++ [nr]) ++ ps, r.length = w := by
        intro r hr
        simp only [List.mem_append, List.mem_singleton] at hr
        rcases hr with (hr | rfl) | hr
        · exact hshape r (by simp [hr])
        · exact hnr
        · exact hshape r (by simp [hr])
      rw [hfold,
        show gpre ++ nr :: ps = (gpre ++ [nr]) ++ ps by simp,
        show gpre.length + 1 = (gpre ++ [nr]).length by simp,
        ih ns (gpre ++ [nr]) w (by simpa using hlen) hshape'
          (fun r hr => hn r (by simp [hr]))]
      simp

/-- Applying a grid's diff against `next` onto `prev` reconstructs `next`
exactly, for rectangular grids of equal dimensions. -/
lemma foldl_applyChange_diff (p n : Grid) (w : Nat) (hlen : p.length = n.length)
    (hp : ∀ r ∈ p, r.length = w) (hn : ∀ r ∈ n, r.length = w) :
    (Renderer.diff p n).foldl applyChange p = n := by
  have := foldl_applyChange_diffGrid p n [] w hlen (by simpa using hp) hn
  simpa [Renderer.diff] using this

lemma mem_diffRow :
    ∀ (pr nr : List Cell) (y x0 : Nat) (ch : CellChange),
      ch ∈ Renderer.diffRow y x0 pr nr ↔
        ch.y = y ∧ ∃ k, ch.x = x0 + k ∧ k < pr.length ∧ nr[k]? = some ch.cell ∧
          pr[k]? ≠ nr[k]? := by
  intro pr
  induction pr with
  | nil =>
    intro nr y x0 ch
    simp [Renderer.diffRow]
  | cons pc ps ih =>
    intro nr y x0 ch
    cases nr with
    | nil =>
      rw [Renderer.diffRow]
      simp
    | cons nc ns =>
      rw [Renderer.diffRow]
      constructor
      · intro h
        rcases List.mem_append.1 h with h1 | h1
        · by_cases hne : pc ≠ nc
          · rw [if_pos hne] at h1
            simp only [List.mem_singleton] at h1
            subst h1
            exact ⟨rfl, 0, by simp, by simp, by simp, by simpa using hne⟩
          · rw [if_neg hne] at h1
            simp at h1
        · rcases (ih ns y (x0 + 1) ch).1 h1 with ⟨hy, k, hx, hk, hnk, hnek⟩
          refine ⟨hy, k + 1, by omega, ?_, by simpa using hnk, by simpa using hnek⟩
          simp only [List.length_cons]
          omega
      · rintro ⟨hy, k, hx, hk, hnk, hnek⟩
        cases k with
        | zero =>
          have hcell : ch.cell = nc := by
            have := hnk
            simp at this
            exact this.symm
          have hne : pc ≠ nc := by simpa using hnek
          apply List.mem_append.2
          left
          rw [if_pos hne]
          have hch : ch = ⟨x0, y, nc⟩ := by
            cases ch
            simp only [CellChange.mk.injEq]
            refine ⟨by simpa using hx, by simpa using hy, by simpa using hcell⟩
          simp [hch]
        | succ km =>
          apply List.mem_append.2
          right
          exact (ih ns y (x0 + 1) ch).2
            ⟨hy, km, by omega, by simpa using hk, by simpa using hnk, by simpa using hnek⟩

lemma mem_diffGrid :
    ∀ (p n : Grid) (y0 : Nat) (ch : CellChange),
      ch ∈ Renderer.diffGrid y0 p n ↔
        ∃ r, r < p.length ∧ ∃ prow nrow, p[r]? = some prow ∧ n[r]? = some nrow ∧
          ch ∈ Renderer.diffRow (y0 + r) 0 prow nrow := by
  intro p
  induction p with
  | nil =>
    intro n y0 ch
    simp [Renderer.diffGrid]
  | cons pr ps ih =>
    intro n y0 ch
    cases n with
    | nil =>
      rw [Renderer.diffGrid]
      simp
    | cons nr ns =>
      rw [Renderer.diffGrid]
      constructor
      · intro h
        rcases List.mem_append.1 h with h1 | h1
        · exact ⟨0, by simp, pr, nr, by simp, by simp, by simpa using h1⟩
        · rcases (ih ns (y0 + 1) ch).1 h1 with ⟨r, hr, prow, nrow, hp, hnn, hm⟩
          refine ⟨r + 1, by simp only [List.length_cons]; omega, prow, nrow,
            by simpa using hp, by simpa using hnn, ?_⟩
          rw [show y0 + (r + 1) = (y0 + 1) + r by omega]
          exact hm
      · rintro ⟨r, hr, prow, nrow, hp, hnn, hm⟩
        cases r with
        | zero =>
          obtain rfl : pr = prow := by simpa using hp
          obtain rfl : nr = nrow := by simpa using hnn
          apply List.mem_append.2
          left
          simpa using hm
        | succ rm =>
          apply List.mem_append.2
          right
          refine (ih ns (y0 + 1) ch).2 ⟨rm, by simpa using hr, prow, nrow,
            by simpa using hp, by simpa using hnn, ?_⟩
          rw [show (y0 + 1) + rm = y0 + (rm + 1) by omega]
          exact hm

lemma cellAt_of_row {g : Grid} {row : List Cell} {x y : Nat}
    (hy : g[y]? = some row) (hx : x < row.length) : cellAt g x y = row.get ⟨x, hx⟩ := by
  rw [cellAt, hy]
  simp only [Option.getD_some]
  rw [List.getElem?_eq_getElem hx]
  simp

/-- `Renderer::diff` contains exactly the in-bounds cells whose
(character, style) pair differs, carrying the new cell. -/
lemma mem_diff_iff (p n : Grid) (w h : Nat)
    (hp1 : p.length = h) (hn1 : n.length = h)
    (hp : ∀ r ∈ p, r.length = w) (hn : ∀ r ∈ n, r.length = w) (ch : CellChange) :
    ch ∈ Renderer.diff p n ↔
      (ch.x < w ∧ ch.y < h ∧ cellAt p ch.x ch.y ≠ cellAt n ch.x ch.y ∧
        ch.cell = cellAt n ch.x ch.y) := by
  rw [Renderer.diff, mem_diffGrid]
  constructor
  · rintro ⟨r, hr, prow, nrow, hpe, hne, hm⟩
    rcases (mem_diffRow prow nrow (0 + r) 0 ch).1 hm with ⟨hy, k, hx, hk, hnk, hnek⟩
    have hprow : prow ∈ p := by
      rcases List.getElem?_eq_some_iff.1 hpe with ⟨hlt, he⟩
      exact he ▸ List.getElem_mem hlt
    have hnrow : nrow ∈ n := by
      rcases List.getElem?_eq_some_iff.1 hne with ⟨hlt, he⟩
      exact he ▸ List.getElem_mem hlt
    have hpw : prow.length = w := hp _ hprow
    have hnw : nrow.length = w := hn _ hnrow
    have hklt : k < nrow.length := by
      rcases List.getElem?_eq_some_iff.1 hnk with ⟨hlt, -⟩
      exact hlt
    have hyr : ch.y = r := by omega
    have hxk : ch.x = k := by omega
    have hcp : cellAt p ch.x ch.y = (prow[k]?).getD Cell.default := by
      rw [cellAt, hyr, hxk, hpe]
      simp
    have hcn : cellAt n ch.x ch.y = (nrow[k]?).getD Cell.default := by
      rw [cellAt, hyr, hxk, hne]
      simp
    refine ⟨by omega, by omega, ?_, ?_⟩
    · rw [hcp, hcn]
      intro hcontra
      apply hnek
      rw [List.getElem?_eq_getElem hk, List.getElem?_eq_getElem hklt] at hcontra ⊢
      simp only [Option.getD_some] at hcontra
      rw [hcontra]
    · rw [hcn, hnk]
      rfl
  · rintro ⟨hx, hy, hne, hcell⟩
    have hyp : ch.y < p.length := by omega
    have hyn : ch.y < n.length := by omega
    have hpw : (p.get ⟨ch.y, hyp⟩).length = w := hp _ (List.get_mem p _ hyp)
    have hnw : (n.get ⟨ch.y, hyn⟩).length = w := hn _ (List.get_mem n _ hyn)
    have hpe : p[ch.y]? = some (p.get ⟨ch.y, hyp⟩) := by
      rw [List.getElem?_eq_getElem hyp]
      simp
    have hnee : n[ch.y]? = some (n.get ⟨ch.y, hyn⟩) := by
      rw [List.getElem?_eq_getElem hyn]
      simp
    refine ⟨ch.y, hyp, p.get ⟨ch.y, hyp⟩, n.get ⟨ch.y, hyn⟩, hpe, hnee, ?_⟩
    have hxp : ch.x < (p.get ⟨ch.y, hyp⟩).length := by omega
    have hxn : ch.x < (n.get ⟨ch.y, hyn⟩).length := by omega
    have hcellp : cellAt p ch.x ch.y = (p.get ⟨ch.y, hyp⟩).get ⟨ch.x, hxp⟩ :=
      cellAt_of_row hpe hxp
    have hcelln : cellAt n ch.x ch.y = (n.get ⟨ch.y, hyn⟩).get ⟨ch.x, hxn⟩ :=
      cellAt_of_row hnee hxn
    refine (mem_diffRow _ _ (0 + ch.y) 0 ch).2 ⟨by omega, ch.x, by omega, by omega, ?_, ?_⟩
    · rw [List.getElem?_eq_getElem hxn, hcell, hcelln]
      simp
    · rw [List.getElem?_eq_getElem hxp, List.getElem?_eq_getElem hxn]
      intro hcontra
      apply hne
      rw [hcellp, hcelln]
      simpa using hcontra

/-- The scene at index `i` (used to state per-index facts about `render`). -/
def sceneAt (scenes : List ResolvedScene) (i : Nat) : ResolvedScene :=
  scenes.getD i ⟨0, 0, []⟩

lemma renderFrames_length (c : TerminalContract) :
    ∀ (scenes : List ResolvedScene) (prev : Option Grid),
      (Renderer.renderFrames c prev scenes).length = scenes.length := by
  intro scenes
  induction scenes with
  | nil => intro prev; rfl
  | cons s rest ih => intro prev; simp [Renderer.renderFrames, ih]

lemma renderFrames_get_zero (c : TerminalContract) (scenes : List ResolvedScene)
    (prev : Option Grid) (h : 0 < scenes.length) :
    (Renderer.renderFrames c prev scenes)[0]? =
      some (match prev with
            | none => Frame.full (Renderer.rasterize (sceneAt scenes 0) c)
            | some p => Frame.diff (Renderer.diff p (Renderer.rasterize (sceneAt scenes 0) c))) := by
  cases scenes with
  | nil => simp at h
  | cons s rest => cases prev <;> simp [Renderer.renderFrames, sceneAt]

lemma renderFrames_get_succ (c : TerminalContract) :
    ∀ (scenes : List ResolvedScene) (prev : Option Grid) (m : Nat),
      m + 1 < scenes.length →
      (Renderer.renderFrames c prev scenes)[m + 1]? =
        some (Frame.diff (Renderer.diff (Renderer.rasterize (sceneAt scenes m) c)
          (Renderer.rasterize (sceneAt scenes (m + 1)) c))) := by
  intro scenes
  induction scenes with
  | nil => intro prev m hm; simp at hm
  | cons s rest ih =>
    intro prev m hm
    have hstep : Renderer.renderFrames c prev (s :: rest) =
        (match prev with
         | none => Frame.full (Renderer.rasterize s c)
         | some p => Frame.diff (Renderer.diff p (Renderer.rasterize s c))) ::
          Renderer.renderFrames c (some (Renderer.rasterize s c)) rest := rfl
    rw [hstep, List.getElem?_cons_succ]
    cases m with
    | zero =>
      have h0 : 0 < rest.length := by simpa using hm
      rw [renderFrames_get_zero c rest (some (Renderer.rasterize s c)) h0]
      simp [sceneAt, List.getD_cons_succ, List.getD_cons_zero]
    | succ mm =>
      have hm' : mm + 1 < rest.length := by simpa using hm
      rw [ih (some (Renderer.rasterize s c)) mm hm']
      simp [sceneAt, List.getD_cons_succ]

/-- C2: `Renderer::render` encodes frame 0 as a Full frame of the first
rasterization and each later frame as a Diff against the immediately
preceding rasterized grid, containing exactly the cells whose
(character, style) pair differs; and applying frame 0's Full grid plus
the intervening Diff changes through frame `n` (the player's
`rebuild_grid`) reconstructs exactly the direct rasterization of frame
`n`. -/
theorem spec_c2 (scenes : List ResolvedScene) (c : TerminalContract) (n : Nat)
    (hn : n < scenes.length) :
    (Renderer.render scenes c).frames.length = scenes.length ∧
    (Renderer.render scenes c).frames[0]? =
      some (Frame.full (Renderer.rasterize (sceneAt scenes 0) c)) ∧
    (∀ m, m + 1 < scenes.length →
      (Renderer.render scenes c).frames[m + 1]? =
        some (Frame.diff (Renderer.diff (Renderer.rasterize (sceneAt scenes m) c)
          (Renderer.rasterize (sceneAt scenes (m + 1)) c)))) ∧
    (∀ m, m + 1 < scenes.length → ∀ ch : CellChange,
      ch ∈ Renderer.diff (Renderer.rasterize (sceneAt scenes m) c)
          (Renderer.rasterize (sceneAt scenes (m + 1)) c) ↔
        (ch.x < c.width ∧ ch.y < c.height ∧
          cellAt (Renderer.rasterize (sceneAt scenes m) c) ch.x ch.y ≠
            cellAt (Renderer.rasterize (sceneAt scenes (m + 1)) c) ch.x ch.y ∧
          ch.cell = cellAt (Renderer.rasterize (sceneAt scenes (m + 1)) c) ch.x ch.y)) ∧
    reconstruct (Renderer.render scenes c).frames c n =
      Renderer.rasterize (sceneAt scenes n) c := by
  have hlen0 : 0 < scenes.length := by omega
  have hidx0 : (Renderer.render scenes c).frames[0]? =
      some (Frame.full (Renderer.rasterize (sceneAt scenes 0) c)) := by
    rw [Renderer.render]
    exact renderFrames_get_zero c scenes none hlen0
  have hsucc : ∀ m, m + 1 < scenes.length →
      (Renderer.render scenes c).frames[m + 1]? =
        some (Frame.diff (Renderer.diff (Renderer.rasterize (sceneAt scenes m) c)
          (Renderer.rasterize (sceneAt scenes (m + 1)) c))) := by
    intro m hm
    rw [Renderer.render]
    exact renderFrames_get_succ c scenes none m hm
  refine ⟨by rw [Renderer.render]; exact renderFrames_length c scenes none, hidx0, hsucc,
    ?_, ?_⟩
  · intro m hm ch
    exact mem_diff_iff _ _ c.width c.height (rasterize_length _ _) (rasterize_length _ _)
      (rasterize_rows _ _) (rasterize_rows _ _) ch
  · have hrec : ∀ k, k < scenes.length →
        reconstruct (Renderer.render scenes c).frames c k =
          Renderer.rasterize (sceneAt scenes k) c := by
      intro k
      induction k with
      | zero =>
        intro hk
        rw [reconstruct, List.take_succ, List.take_zero, List.nil_append, hidx0]
        simp [applyFrame]
      | succ m ihm =>
        intro hk
        have hm : m < scenes.length := by omega
        rw [reconstruct, List.take_succ, List.foldl_append, hsucc m hk]
        have hprev : ((Renderer.render scenes c).frames.take (m + 1)).foldl applyFrame
            (emptyGrid c.width c.height) = Renderer.rasterize (sceneAt scenes m) c := ihm hm
        rw [hprev]
        simp only [Option.toList_some, List.foldl_cons, List.foldl_nil, applyFrame]
        exact foldl_applyChange_diff _ _ c.width
          (by rw [rasterize_length, rasterize_length])
          (rasterize_rows _ _) (rasterize_rows _ _)
    exact hrec n hn

/-- C2 witness: two one-cell scenes on a 1×1 contract. -/
theorem spec_c2_witness :
    reconstruct
      (Renderer.render [⟨1, 1, [⟨0, 0, 'x', {}, 0⟩]⟩, ⟨1, 1, []⟩] ⟨1, 1⟩).frames
      ⟨1, 1⟩ 1 =
      Renderer.rasterize (sceneAt [⟨1, 1, [⟨0, 0, 'x', {}, 0⟩]⟩, ⟨1, 1, []⟩] 1) ⟨1, 1⟩ :=
  (spec_c2 [⟨1, 1, [⟨0, 0, 'x', {}, 0⟩]⟩, ⟨1, 1, []⟩] ⟨1, 1⟩ 1 (by decide)).2.2.2.2

/-! ## Table (`src/engine/objects/table.rs`) -/

namespace table

/-- The `while pos < chars.len()` loop of table.rs's `wrap_text_line`
(same family as the label wrap, without list-continuation indents). -/
def wrapGo (w : Nat) : Nat → List Char → List (List Char)
  | 0, _ => []
  | _ + 1, [] => []
  | fuel + 1, ch :: chs =>
    let chars := ch :: chs
    if chars.length ≤ w then
      [label.padRow w 0 chars]
    else
      let chunk := chars.take w
      let ra :=
        match label.rposition_space chunk with
        | some sp => (sp, sp + 1)
        | none => (w, w)
      label.padRow w 0 (chars.take ra.1) ::
        wrapGo w fuel ((chars.drop ra.2).dropWhile (· == ' '))

/-- `table::wrap_text_line`: word-wrap one logical line to width `w`,
rows padded to `w`; empty input or zero width yields one empty row. -/
def wrap_text_line (line : List Char) (w : Nat) : List (List Char) :=
  if line.isEmpty ∨ w = 0 then [[]]
  else
    let rows := wrapGo w (line.length + 1) line
    if rows.isEmpty then [[]] else rows

/-- `table::wrap_cell_content`: wrap every `\n`-separated line. -/
def wrap_cell_content (content : List Char) (w : Nat) : List (List Char) :=
  if w = 0 then [[]]
  else
    let result := (splitOnChar '\n' content).flatMap (fun line => wrap_text_line line w)
    if result.isEmpty then [[]] else result

end table

structure TableCell where
  content : String := ""
  style : Option Style := none
  deriving DecidableEq, Repr

structure Table where
  position : Position
  width : Coordinate := .fixed 30
  /-- When 0, height is computed automatically from cell content. -/
  height : Coordinate := .fixed 0
  /-- Fractional column widths (`f64` in the source, exact `ℚ` here). -/
  col_widths : List ℚ
  rows : Nat
  cells : List (List TableCell) := []
  header_bold : Bool := false
  borders : Bool := true
  style : Style := {}
  frames : FrameRange
  z_order : Int := 0
  deriving DecidableEq, Repr

/-- Rust's `Vec::resize_with`: truncate or extend with the default. -/
def resizeWith {α : Type} (l : List α) (n : Nat) (d : α) : List α :=
  l.take n ++ List.replicate (n - l.length) d

/-- `Table::col_count`. -/
def Table.col_count (t : Table) : Nat := t.col_widths.length

/-- `Table::normalize_cells`: resize `cells` to exactly `rows × col_count`. -/
def Table.normalize_cells (t : Table) : Table :=
  let ncols := t.col_widths.length
  { t with cells := (resizeWith t.cells t.rows []).map (fun row => resizeWith row ncols {}) }

/-- `Table::layout`: `(col_content_widths, col_x_starts)` for a total
width; fractions are floored against the available width (minus border
columns) and the last column absorbs the rounding remainder. -/
def Table.layout (t : Table) (total_width : Nat) : List Nat × List Nat :=
  let ncols := t.col_widths.length
  if ncols = 0 ∨ total_width = 0 then ([], [])
  else
    let avail := if t.borders then total_width - (ncols + 1) else total_width
    let step := t.col_widths.enum.foldl (fun (acc : Nat × List Nat) iw =>
        let wcol :=
          if iw.1 + 1 = ncols then avail - acc.1
          else min (((avail : ℚ) * iw.2).floor.toNat) (avail - acc.1)
        (acc.1 + wcol, acc.2 ++ [wcol])) (0, [])
    let col_content_widths := step.2
    let xs := col_content_widths.enum.foldl (fun (acc : Nat × List Nat) icw =>
        let x2 := acc.1 + icw.2 + (if t.borders ∧ icw.1 + 1 < ncols then 1 else 0)
        (x2, acc.2 ++ [acc.1])) ((if t.borders then 1 else 0), [])
    (col_content_widths, xs.2)

/-- `Table::row_height`: max wrapped line count over the row's cells
(missing cells read as empty content; height is at least 1). -/
def Table.row_height (t : Table) (row_idx : Nat) (col_content_widths : List Nat) : Nat :=
  col_content_widths.enum.foldl (fun max_lines ccw =>
    if ccw.2 = 0 then max_lines
    else
      let content := (((t.cells.getD row_idx []).getD ccw.1 {}).content).toList
      let lines := (table.wrap_cell_content content ccw.2).length
      if max_lines < lines then lines else max_lines) 1

/-- The `cell_style` closure of `Table::resolve_internal`. -/
def Table.cell_style (t : Table) (highlighted_col : Option Nat)
    (selected_cells : List (Nat × Nat)) (cell_mode : Bool) (row_idx col_idx : Nat) : Style :=
  let base := (((t.cells.getD row_idx []).getD col_idx {}).style).getD t.style
  let is_header := decide (row_idx = 0) && t.header_bold
  let is_selected := selected_cells.contains (row_idx, col_idx)
  let in_highlighted_col := highlighted_col == some col_idx
  if in_highlighted_col || is_selected then
    { fg := some (.named .red), bg := base.bg, bold := is_header || base.bold, dim := false }
  else if cell_mode then
    { fg := some (.named .white), bg := none, bold := false, dim := true }
  else if is_header then
    { fg := base.fg, bg := base.bg, bold := true, dim := base.dim }
  else base

/-- The `border_style` closure of `Table::resolve_internal`. -/
def Table.border_style (t : Table) (highlighted_col : Option Nat) (cell_mode : Bool)
    (col_idx_maybe : Option Nat) : Style :=
  let in_highlighted :=
    highlighted_col.isSome && col_idx_maybe.isSome && (col_idx_maybe == highlighted_col)
  if cell_mode && !in_highlighted then
    { fg := some (.named .white), bg := none, bold := false, dim := true }
  else if in_highlighted then
    { fg := some (.named .red), bg := none, bold := false, dim := false }
  else t.style

/-- One horizontal border line of the bordered table (`border_row` from 0
to `nrows` inclusive): left corner/junction, per-column dashes, right
corner/junction; `bx` advances by checked u16 increments. -/
def Table.horizLine (t : Table) (hl : Option Nat) (cm : Bool) (border_row nrows : Nat)
    (base_x by_ : Nat) (col_widths : List Nat) (z : Int) : Option (List DrawOp) := do
  let ncols := t.col_widths.length
  let st ← (List.range ncols).foldlM (fun (acc : Nat × List DrawOp) ci => do
      let corner_ch :=
        if border_row = 0 then (if ci = 0 then '┌' else '┬')
        else if border_row = nrows then (if ci = 0 then '└' else '┴')
        else (if ci = 0 then '├' else '┼')
      let bs := t.border_style hl cm ((some ci).filter (fun _ => decide (0 < ci)))
      let acc1 := acc.2 ++ [(⟨acc.1, by_, corner_ch, bs, z⟩ : DrawOp)]
      let bx1 ← add16 acc.1 1
      let cw := col_widths.getD ci 0
      let dash_bs := t.border_style hl cm (some ci)
      (List.range cw).foldlM (fun (acc2 : Nat × List DrawOp) _ => do
          let acc2ops := acc2.2 ++ [(⟨acc2.1, by_, '─', dash_bs, z⟩ : DrawOp)]
          let bx2 ← add16 acc2.1 1
          pure (bx2, acc2ops)) (bx1, acc1)) (base_x, [])
  let last_corner :=
    if border_row = 0 then '┐' else if border_row = nrows then '┘' else '┤'
  let last_bs := t.border_style hl cm (some (t.col_widths.length - 1))
  pure (st.2 ++ [⟨st.1, by_, last_corner, last_bs, z⟩])

/-- The vertical border bars of the table: one left outer bar plus one
separator per column, for each content line of each row. -/
def Table.vertBars (t : Table) (hl : Option Nat) (cm : Bool) (base_x base_y : Nat)
    (col_widths col_starts row_heights row_y_offsets : List Nat) (z : Int) :
    Option (List DrawOp) := do
  let parts ← (List.range t.rows).mapM (fun row_idx => do
      let ry ← add16 base_y (row_y_offsets.getD row_idx 0)
      let lines ← (List.range ((row_heights.getD row_idx 1) % 65536)).mapM (fun line => do
          let ly ← add16 ry line
          let lbs := t.border_style hl cm none
          let seps ← (List.range t.col_widths.length).mapM (fun ci => do
              let bar_x ← add16 (← add16 base_x ((col_starts.getD ci 0) % 65536))
                ((col_widths.getD ci 0) % 65536)
              let bs := t.border_style hl cm (some ci)
              pure (⟨bar_x, ly, '│', bs, z⟩ : DrawOp))
          pure ((⟨base_x, ly, '│', lbs, z⟩ : DrawOp) :: seps))
      pure lines.flatten)
  pure parts.flatten

/-- The cell text content of the table: per row and column, the wrapped
content lines, left-aligned from the cell's top; spaces are emitted only
when the resolved style has a background. -/
def Table.cellContentOps (t : Table) (hl : Option Nat) (sel : List (Nat × Nat)) (cm : Bool)
    (base_x base_y : Nat) (col_widths col_starts row_y_offsets : List Nat) (z : Int) :
    Option (List DrawOp) := do
  let parts ← (List.range t.rows).mapM (fun row_idx => do
      let ry ← add16 base_y (row_y_offsets.getD row_idx 0)
      let cols ← (List.range t.col_widths.length).mapM (fun col_idx => do
          let cw := col_widths.getD col_idx 0
          if cw = 0 then pure []
          else do
            let cx ← add16 base_x ((col_starts.getD col_idx 0) % 65536)
            let content := (((t.cells.getD row_idx []).getD col_idx {}).content).toList
            let st := t.cell_style hl sel cm row_idx col_idx
            let wrapped := table.wrap_cell_content content cw
            let lns ← wrapped.enum.mapM (fun lrow => do
                let ly ← add16 ry lrow.1
                let lineOps ← lrow.2.enum.mapM (fun xc => do
                    if xc.2 ≠ ' ' ∨ st.bg.isSome then do
                      let x ← add16 cx xc.1
                      pure [(⟨x, ly, xc.2, st, z⟩ : DrawOp)]
                    else pure [])
                pure lineOps.flatten)
            pure lns.flatten)
      pure cols.flatten)
  pure parts.flatten

/-- `Table::resolve_internal` with the editor-overlay parameters: borders
(horizontal lines, then vertical bars), then cell content. -/
def Table.resolve_internal (t : Table) (frame : Nat) (highlighted_col : Option Nat)
    (selected_cells : List (Nat × Nat)) (cell_mode : Bool) (_blink_hidden : Bool) :
    Option (List DrawOp) :=
  if ¬ t.frames.contains frame then some []
  else
    let base_x := t.position.x.evaluate frame
    let base_y := t.position.y.evaluate frame
    let total_width := t.width.evaluate frame
    let ncols := t.col_widths.length
    let nrows := t.rows
    if total_width = 0 ∨ ncols = 0 ∨ nrows = 0 then some []
    else do
      let lay := t.layout total_width
      let col_widths := lay.1
      let col_starts := lay.2
      let row_heights := (List.range nrows).map (fun r => t.row_height r col_widths)
      let offsSt ← (List.range nrows).foldlM (fun (acc : Nat × List Nat) r => do
          let withCur := acc.2 ++ [acc.1]
          let c1 ← add16 acc.1 ((row_heights.getD r 1) % 65536)
          let c2 ← if t.borders then add16 c1 1 else pure c1
          pure (c2, withCur)) (((if t.borders then 1 else 0) : Nat), ([] : List Nat))
      let row_y_offsets := offsSt.2
      let z := t.z_order
      let borderOps ←
        if t.borders then do
          let hlines ← (List.range (nrows + 1)).mapM (fun border_row => do
              let by_ ←
                if border_row = 0 then pure base_y
                else do
                  add16 (← add16 base_y (row_y_offsets.getD (border_row - 1) 0))
                    ((row_heights.getD (border_row - 1) 1) % 65536)
              t.horizLine highlighted_col cell_mode border_row nrows base_x by_ col_widths z)
          let vbars ← t.vertBars highlighted_col cell_mode base_x base_y col_widths col_starts
            row_heights row_y_offsets z
          pure (hlines.flatten ++ vbars)
        else pure []
      let contentOps ← t.cellContentOps highlighted_col selected_cells cell_mode base_x base_y
        col_widths col_starts row_y_offsets z
      pure (borderOps ++ contentOps)

/-- `impl Resolve for Table` (table.rs lines 228-232): the standard
resolve passes no editor overlays. -/
def Table.resolve (t : Table) (frame : Nat) : Option (List DrawOp) :=
  t.resolve_internal frame none [] false false

/-- `table_add_column`: scale existing fractions by `n/(n+1)`, insert an
equal share `1/(n+1)` at the (clamped) index, insert a default cell column
into every row, then normalize the matrix to `rows × (n+1)`. -/
def table_add_column (t : Table) (insert_idx : Nat) : Table :=
  let n := t.col_widths.length
  let new_n := n + 1
  let new_frac : ℚ := 1 / (new_n : ℚ)
  let scale : ℚ := (n : ℚ) / (new_n : ℚ)
  let scaled := t.col_widths.map (· * scale)
  let idx := min insert_idx n
  let cw := scaled.insertIdx idx new_frac
  let cells := t.cells.map (fun row =>
    (if row.length < n then row ++ List.replicate (n - row.length) {} else row).insertIdx idx {})
  Table.normalize_cells { t with col_widths := cw, cells := cells }

/-- `table_remove_column`: no-op when only one column is left or the index
is out of range; otherwise remove the column and rescale the remaining
fractions by `1/(1 - removed)` (equal redistribution if nearly nothing
remains), removing the cell column from every row. -/
def table_remove_column (t : Table) (col_idx : Nat) : Table :=
  let n := t.col_widths.length
  if n ≤ 1 ∨ n ≤ col_idx then t
  else
    let removed_frac := t.col_widths.getD col_idx 0
    let cw1 := t.col_widths.eraseIdx col_idx
    let remaining : ℚ := 1 - removed_frac
    let cw2 :=
      if 1 / 1000 < remaining then cw1.map (· * (1 / remaining))
      else cw1.map (fun _ => 1 / (cw1.length : ℚ))
    let cells := t.cells.map (fun row =>
      if col_idx < row.length then row.eraseIdx col_idx else row)
    { t with col_widths := cw2, cells := cells }

/-! ## Claim C8 (table column round-trip) -/

lemma resizeWith_length {α : Type} (l : List α) (n : Nat) (d : α) :
    (resizeWith l n d).length = n := by
  simp [resizeWith]
  omega

/-- C8 counterexample: for a table with no columns, `table_add_column`
followed by `table_remove_column` at index 0 does NOT restore
`col_widths.len()`: the remove is a guarded no-op once only one column
exists, so the length goes 0 → 1 and stays 1. -/
theorem spec_c8_counterexample :
    ({ position := ⟨.fixed 0, .fixed 0⟩, col_widths := [], rows := 1,
       frames := ⟨0, 1⟩ } : Table).col_widths.length = 0 ∧
    (table_remove_column
      (table_add_column
        { position := ⟨.fixed 0, .fixed 0⟩, col_widths := [], rows := 1,
          frames := ⟨0, 1⟩ } 0) 0).col_widths.length = 1 := by
  constructor
  · rfl
  · rfl

/-- C8 (amended): for every table with at least one column and every
insertion index at most the column count, `table_add_column` then
`table_remove_column` at the same index restores `col_widths.len()`, leaves
every surviving fraction within 1e-6 of its pre-add value (in the exact
arithmetic of the model the round-trip is exact), and the cell matrix is
rectangular after the add (`rows × (n+1)`) and after the remove
(`rows × n`). -/
theorem spec_c8 (t : Table) (idx : Nat) (h1 : 1 ≤ t.col_widths.length)
    (h2 : idx ≤ t.col_widths.length) :
    (table_remove_column (table_add_column t idx) idx).col_widths.length =
      t.col_widths.length ∧
    (∀ i, i < t.col_widths.length →
      |(table_remove_column (table_add_column t idx) idx).col_widths.getD i 0 -
        t.col_widths.getD i 0| ≤ 1 / 1000000) ∧
    ((table_add_column t idx).cells.length = t.rows ∧
      ∀ row ∈ (table_add_column t idx).cells, row.length = t.col_widths.length + 1) ∧
    ((table_remove_column (table_add_column t idx) idx).cells.length = t.rows ∧
      ∀ row ∈ (table_remove_column (table_add_column t idx) idx).cells,
        row.length = t.col_widths.length) := by
  have hmin : min idx t.col_widths.length = idx := min_eq_left h2
  have hn1 : (1 : ℚ) ≤ (t.col_widths.length : ℚ) := by exact_mod_cast h1
  have hAcw : (table_add_column t idx).col_widths =
      (t.col_widths.map
          (· * ((t.col_widths.length : ℚ) / ((t.col_widths.length + 1 : Nat) : ℚ)))).insertIdx
        idx (1 / ((t.col_widths.length + 1 : Nat) : ℚ)) := by
    simp only [table_add_column, Table.normalize_cells, hmin]
  have hidxle : idx ≤ (t.col_widths.map
      (· * ((t.col_widths.length : ℚ) / ((t.col_widths.length + 1 : Nat) : ℚ)))).length := by
    simpa using h2
  have hAlen : (table_add_column t idx).col_widths.length = t.col_widths.length + 1 := by
    rw [hAcw, List.length_insertIdx _ _ hidxle]
    simp
  have hguard : ¬ ((table_add_column t idx).col_widths.length ≤ 1 ∨
      (table_add_column t idx).col_widths.length ≤ idx) := by
    rw [hAlen]
    push_neg
    omega
  have hidxlt : idx < ((t.col_widths.map
      (· * ((t.col_widths.length : ℚ) / ((t.col_widths.length + 1 : Nat) : ℚ)))).insertIdx
        idx (1 / ((t.col_widths.length + 1 : Nat) : ℚ))).length := by
    rw [List.length_insertIdx _ _ hidxle]
    simp
    omega
  have hremoved : (table_add_column t idx).col_widths.getD idx 0 =
      1 / ((t.col_widths.length + 1 : Nat) : ℚ) := by
    rw [hAcw, List.getD_eq_getElem?_getD, List.getElem?_eq_getElem hidxlt]
    rw [List.getElem_insertIdx_self _ _ _ hidxle]
    rfl
  have herase : (table_add_column t idx).col_widths.eraseIdx idx =
      t.col_widths.map
        (· * ((t.col_widths.length : ℚ) / ((t.col_widths.length + 1 : Nat) : ℚ))) := by
    rw [hAcw, List.eraseIdx_insertIdx]
  have hxne : ((t.col_widths.length : ℚ) + 1) ≠ 0 := by positivity
  have hnne : ((t.col_widths.length : ℚ)) ≠ 0 := by linarith
  have hrem : (1 : ℚ) - 1 / ((t.col_widths.length + 1 : Nat) : ℚ) =
      (t.col_widths.length : ℚ) / ((t.col_widths.length : ℚ) + 1) := by
    push_cast
    field_simp
  have hgt : 1 / 1000 < (1 : ℚ) - (table_add_column t idx).col_widths.getD idx 0 := by
    rw [hremoved, hrem, div_lt_div_iff₀ (by norm_num) (by linarith)]
    linarith
  have hRcw : (table_remove_column (table_add_column t idx) idx).col_widths =
      ((table_add_column t idx).col_widths.eraseIdx idx).map
        (· * (1 / ((1 : ℚ) - (table_add_column t idx).col_widths.getD idx 0))) := by
    rw [table_remove_column, if_neg hguard]
    simp only [if_pos hgt]
  have hfactor : ((t.col_widths.length : ℚ) / ((t.col_widths.length + 1 : Nat) : ℚ)) *
      (1 / ((1 : ℚ) - 1 / ((t.col_widths.length + 1 : Nat) : ℚ))) = 1 := by
    rw [hrem]
    push_cast
    field_simp
  have hpoint : ∀ i, i < t.col_widths.length →
      (table_remove_column (table_add_column t idx) idx).col_widths.getD i 0 =
        t.col_widths.getD i 0 := by
    intro i hi
    rw [hRcw, hremoved, herase, List.map_map,
      List.getD_eq_getElem?_getD, List.getElem?_map, List.getElem?_eq_getElem hi,
      List.getD_eq_getElem?_getD, List.getElem?_eq_getElem hi]
    simp [Function.comp, mul_assoc, hfactor]
    field_simp
  have hAcells : (table_add_column t idx).cells.length = t.rows ∧
      ∀ row ∈ (table_add_column t idx).cells, row.length = t.col_widths.length + 1 := by
    constructor
    · simp only [table_add_column, Table.normalize_cells]
      rw [List.length_map, resizeWith_length]
    · intro row hrow
      simp only [table_add_column, Table.normalize_cells, List.mem_map] at hrow
      rcases hrow with ⟨row0, -, rfl⟩
      rw [resizeWith_length, hmin, List.length_insertIdx _ _ hidxle]
      simp
  refine ⟨?_, ?_, hAcells, ?_, ?_⟩
  · rw [hRcw, List.length_map, herase, List.length_map]
  · intro i hi
    rw [hpoint i hi]
    simp
  · rw [table_remove_column, if_neg hguard]
    simp only [List.length_map]
    exact hAcells.1
  · intro row hrow
    rw [table_remove_column, if_neg hguard] at hrow
    simp only [List.mem_map] at hrow
    rcases hrow with ⟨row0, hrow0, rfl⟩
    have hlen0 : row0.length = t.col_widths.length + 1 := hAcells.2 row0 hrow0
    rw [if_pos (by omega), List.length_eraseIdx]
    rw [if_pos (by omega)]
    omega

/-- C8 witness: a concrete two-column table round-trips at index 1. -/
theorem spec_c8_witness :
    (table_remove_column
      (table_add_column
        { position := ⟨.fixed 0, .fixed 0⟩, col_widths := [1 / 2, 1 / 2], rows := 1,
          frames := ⟨0, 1⟩ } 1) 1).col_widths.length =
      ({ position := ⟨.fixed 0, .fixed 0⟩, col_widths := [1 / 2, 1 / 2], rows := 1,
         frames := ⟨0, 1⟩ } : Table).col_widths.length :=
  (spec_c8 _ 1 (by decide) (by decide)).1

/-! ## SceneObject and Engine (`src/engine/source.rs`, `src/engine/mod.rs`) -/

inductive SceneObject where
  | label (o : Label)
  | hline (o : HLine)
  | rect (o : Rect)
  | header (o : Header)
  | group (o : Group)
  | arrow (o : Arrow)
  | table (o : Table)

/-- `impl Resolve for SceneObject` (src/engine/objects/mod.rs, lines
30-41).  The source match has arms for Label, HLine, Rect, Header, Group
and Arrow only — it has NO arm for `SceneObject::Table` (a non-exhaustive
match, which rustc rejects; `mod.rs` neither declares `mod table` nor
re-exports it).  The missing arm is modelled as `none` (failure); the
total resolvers are wrapped in `some`. -/
def SceneObject.resolve : SceneObject → Nat → Option (List DrawOp)
  | .label o, f => o.resolve f
  | .hline o, f => some (o.resolve f)
  | .rect o, f => o.resolve f
  | .header o, f => o.resolve f
  | .group o, f => some (o.resolve f)
  | .arrow o, f => some (o.resolve f)
  | .table _, _ => none

structure SourcePresentation where
  width : Nat
  height : Nat
  frame_count : Nat
  objects : List SceneObject

namespace Engine

/-- `Engine::resolve_frame`: iterate objects in list order, appending each
object's DrawOps to the flat op list. -/
def resolve_frame (source : SourcePresentation) (frame : Nat) : Option ResolvedScene := do
  let ops ← source.objects.foldlM (fun acc obj => do
      pure (acc ++ (← obj.resolve frame))) ([] : List DrawOp)
  pure ⟨source.width, source.height, ops⟩

/-- `Engine::compile`: one resolved scene per frame `0..frame_count`. -/
def compile (source : SourcePresentation) : Option (List ResolvedScene) :=
  (List.range source.frame_count).mapM (resolve_frame source)

end Engine

/-! ## Claim C1 (Table dispatch in Engine.compile) -/

/-- A minimal visible one-column, one-row table. -/
def c1Table : Table :=
  { position := ⟨.fixed 0, .fixed 0⟩, width := .fixed 5, height := .fixed 0,
    col_widths := [1], rows := 1, cells := [[{ content := "A" }]],
    frames := ⟨0, 1⟩ }

/-- C1: the claim (every SceneObject variant, including Table, contributes
the ops its resolver emits) fails on the code: the `SceneObject` dispatch
has no Table arm, so a presentation containing a Table cannot be compiled
(`none` models the missing arm / rustc rejection), even though
`Table::resolve` itself would emit a non-empty op list for the same table
at the same frame. -/
theorem spec_c1 :
    SceneObject.resolve (SceneObject.table c1Table) 0 = none ∧
    Engine.compile ⟨80, 24, 1, [SceneObject.table c1Table]⟩ = none ∧
    (Table.resolve c1Table 0).isSome = true ∧
    (Table.resolve c1Table 0).getD [] ≠ [] := by
  refine ⟨rfl, by decide, by decide, by decide⟩

end Bs
